import Mathlib

/-!
Verification of the insightful-orders analytics and alerting core.

Shallow embedding of `app/utils/helpers.py`, `app/services/analytics.py`
and `app/services/alerts.py`.  Strings are modelled as `List Char`,
decimal amounts as `ℚ`, timestamps as `Int` seconds since the Unix epoch,
and `timedelta` values as `Int` seconds.  Fallible Python code (raising
`ValueError`) is modelled with `Option`/`Except`.
-/

namespace InsightfulOrders

/- The Batteries rational-number operations are `@[irreducible]`, which
blocks kernel evaluation of concrete `ℚ` arithmetic in `decide`; restore
the default reducibility locally for this development. -/
section
attribute [local semireducible] Rat.add Rat.mul Rat.inv Rat.sub Rat.ofScientific

/-! ## Python primitives -/

/-- The whitespace characters stripped by Python's `int(str)` conversion
(ASCII subset; the embedded strings contain only ASCII). -/
def isPySpace (c : Char) : Bool :=
  c = ' ' || c = '\t' || c = '\n' || c = '\r' || c = Char.ofNat 11 || c = Char.ofNat 12

/-- Numeric value of an ASCII digit. -/
def digitVal (c : Char) : Nat := c.toNat - 48

/-- Continuation of a digit run in Python's integer grammar:
`digit (("_")? digit)*` — an underscore must sit between two digits. -/
def digitsUAux : Nat → List Char → Option Nat
  | acc, [] => some acc
  | acc, c :: cs =>
    if c.isDigit then digitsUAux (acc * 10 + digitVal c) cs
    else if c = '_' then
      match cs with
      | [] => none
      | d :: cs' => if d.isDigit then digitsUAux (acc * 10 + digitVal d) cs' else none
    else none

/-- Parse a nonempty digit run (with Python's single-underscore separators). -/
def digitsU : List Char → Option Nat
  | [] => none
  | c :: cs => if c.isDigit then digitsUAux (digitVal c) cs else none

/-- Python `int(s)` on a string: optional surrounding whitespace, optional
sign, then digits with optional underscore separators; `none` models the
`ValueError` raised on any other input. -/
def pyInt (s : List Char) : Option Int :=
  let t := ((s.dropWhile isPySpace).reverse.dropWhile isPySpace).reverse
  match t with
  | [] => none
  | c :: rest =>
    if c = '+' then (digitsU rest).map (fun n => (n : Int))
    else if c = '-' then (digitsU rest).map (fun n => -(n : Int))
    else (digitsU (c :: rest)).map (fun n => (n : Int))

/-- Decimal value of a digit string (most significant first). -/
def digitsVal (ds : List Char) : Nat := ds.foldl (fun a c => a * 10 + digitVal c) 0

/-! ## `app/utils/helpers.py` — `parse_window_str` -/

/-- `parse_window_str` from `app/utils/helpers.py`.  Returns the parsed
window as a number of seconds (`timedelta` total seconds); `none` models
the raised `ValueError`.  Mirrors the source: reject when falsy or shorter
than 2 characters, parse `window[:-1]` with Python `int`, lowercase the
final character, and dispatch on `d`/`w`/`m`/`y`. -/
def parse_window_str (w : List Char) : Option Int :=
  if w.length < 2 then none
  else
    match pyInt w.dropLast with
    | none => none
    | some num =>
      let u := (w.getLast?.getD ' ').toLower
      if u = 'd' then some (num * 86400)
      else if u = 'w' then some (num * 7 * 86400)
      else if u = 'm' then some (30 * num * 86400)
      else if u = 'y' then some (365 * num * 86400)
      else none

/-- Seconds for one unit character, as used by `parse_window_str`. -/
def unitSeconds (u : Char) : Int :=
  if u = 'd' then 86400
  else if u = 'w' then 7 * 86400
  else if u = 'm' then 30 * 86400
  else if u = 'y' then 365 * 86400
  else 0

/-! ## `app/utils/helpers.py` — `parse_monthish`

`datetime.strptime(s, fmt)` for the two formats used by the source is
modelled after CPython's `_strptime`: `%Y` matches exactly four digits,
`%m` matches `1[0-2]|0[1-9]|[1-9]`, `%d` matches
`3[01]|[12]\d|0[1-9]|[1-9]` (alternatives tried left to right), literal
characters match themselves, the whole input must be consumed, and the
final `datetime` construction additionally requires `year ≥ 1` and the
day to exist in the month. -/

/-- A parsed `datetime` restricted to its date fields (the time fields are
always midnight here). -/
structure PyDate where
  year : Nat
  month : Nat
  day : Nat
deriving DecidableEq, Repr

/-- `%Y`: exactly four digits. -/
def matchYear : List Char → Option (Nat × List Char)
  | a :: b :: c :: d :: rest =>
    if a.isDigit ∧ b.isDigit ∧ c.isDigit ∧ d.isDigit then
      some (digitVal a * 1000 + digitVal b * 100 + digitVal c * 10 + digitVal d, rest)
    else none
  | _ => none

/-- `%m`: `1[0-2]|0[1-9]|[1-9]`, first matching alternative wins. -/
def matchMonth : List Char → Option (Nat × List Char)
  | [] => none
  | c :: cs =>
    if c = '1' then
      match cs with
      | d :: rest => if d = '0' ∨ d = '1' ∨ d = '2' then some (10 + digitVal d, rest)
          else some (1, cs)
      | [] => some (1, [])
    else if c = '0' then
      match cs with
      | d :: rest => if d.isDigit ∧ d ≠ '0' then some (digitVal d, rest) else none
      | [] => none
    else if c.isDigit then some (digitVal c, cs)
    else none

/-- `%d`: `3[01]|[12]\d|0[1-9]|[1-9]`, first matching alternative wins. -/
def matchDay : List Char → Option (Nat × List Char)
  | [] => none
  | c :: cs =>
    if c = '3' then
      match cs with
      | d :: rest => if d = '0' ∨ d = '1' then some (30 + digitVal d, rest) else some (3, cs)
      | [] => some (3, [])
    else if c = '1' ∨ c = '2' then
      match cs with
      | d :: rest => if d.isDigit then some (digitVal c * 10 + digitVal d, rest)
          else some (digitVal c, cs)
      | [] => some (digitVal c, [])
    else if c = '0' then
      match cs with
      | d :: rest => if d.isDigit ∧ d ≠ '0' then some (digitVal d, rest) else none
      | [] => none
    else if c.isDigit then some (digitVal c, cs)
    else none

/-- A literal character in a `strptime` format string. -/
def matchLit (ch : Char) : List Char → Option (List Char)
  | c :: rest => if c = ch then some rest else none
  | [] => none

/-- Gregorian leap year, as `datetime` validates it. -/
def isLeap (y : Nat) : Bool := (y % 4 = 0 ∧ y % 100 ≠ 0) ∨ y % 400 = 0

/-- Number of days in a month, as `datetime` validates it. -/
def daysInMonth (y m : Nat) : Nat :=
  if m = 2 then (if isLeap y then 29 else 28)
  else if m = 4 ∨ m = 6 ∨ m = 9 ∨ m = 11 then 30
  else 31

/-- `datetime.strptime(s, "%Y-%m")`, including the `datetime(y, m, 1)`
construction check (`year ≥ 1`); `none` models `ValueError`. -/
def strptimeYm (cs : List Char) : Option PyDate :=
  match matchYear cs with
  | none => none
  | some (y, r1) =>
    match matchLit '-' r1 with
    | none => none
    | some r2 =>
      match matchMonth r2 with
      | none => none
      | some (m, r3) =>
        if r3 = [] then (if 1 ≤ y then some ⟨y, m, 1⟩ else none) else none

/-- `datetime.strptime(s, "%Y-%m-%d")`, including the `datetime(y, m, d)`
construction check; `none` models `ValueError`. -/
def strptimeYmd (cs : List Char) : Option PyDate :=
  match matchYear cs with
  | none => none
  | some (y, r1) =>
    match matchLit '-' r1 with
    | none => none
    | some r2 =>
      match matchMonth r2 with
      | none => none
      | some (m, r3) =>
        match matchLit '-' r3 with
        | none => none
        | some r4 =>
          match matchDay r4 with
          | none => none
          | some (d, r5) =>
            if r5 = [] then
              (if 1 ≤ y ∧ 1 ≤ d ∧ d ≤ daysInMonth y m then some ⟨y, m, d⟩ else none)
            else none

/-- `parse_monthish` from `app/utils/helpers.py`: `None`/empty input gives
`None`; otherwise try `"%Y-%m"` then `"%Y-%m-%d"`, returning `None` when
both attempts raise `ValueError`. -/
def parse_monthish (s : Option (List Char)) : Option PyDate :=
  match s with
  | none => none
  | some cs =>
    if cs = [] then none
    else
      match strptimeYm cs with
      | some d => some d
      | none => strptimeYmd cs

/-- Modelled from the spec claim's words: a string of shape `YYYY-MM` —
four digits, a dash, two digits. -/
def strictYmShape (cs : List Char) : Bool :=
  match cs with
  | [a, b, c, d, e, f, g] =>
    a.isDigit && b.isDigit && c.isDigit && d.isDigit && e = '-' && f.isDigit && g.isDigit
  | _ => false

/-- Modelled from the spec claim's words: a string of shape `YYYY-MM-DD` —
four digits, a dash, two digits, a dash, two digits. -/
def strictYmdShape (cs : List Char) : Bool :=
  match cs with
  | [a, b, c, d, e, f, g, h, i, j] =>
    a.isDigit && b.isDigit && c.isDigit && d.isDigit && e = '-' && f.isDigit && g.isDigit
      && h = '-' && i.isDigit && j.isDigit
  | _ => false

/-! ## `app/services/analytics.py` — `_score_by_quintiles` -/

/-- A Python dict built by iterated assignment `d[k] = v` (later entries
overwrite earlier ones), read back as a lookup function. -/
def dictUpsert (l : List (Nat × Nat)) : Nat → Option Nat :=
  l.foldl (fun acc p => fun k => if k = p.1 then some p.2 else acc k) (fun _ => none)

/-- `qidx` from `_score_by_quintiles`: nearest-rank index
`max(0, min(n - 1, ceil(q * n) - 1))`. -/
def qidx (n : Nat) (q : ℚ) : Nat :=
  (max 0 (min ((n : Int) - 1) (⌈q * (n : ℚ)⌉ - 1))).toNat

/-- The five-way threshold comparison of `_score_by_quintiles`: lower
values score higher when `smaller` is true, and vice versa. -/
def bucketScore (smaller : Bool) (t20 t40 t60 t80 v : ℚ) : Nat :=
  if smaller then
    (if v ≤ t20 then 5 else if v ≤ t40 then 4 else if v ≤ t60 then 3
      else if v ≤ t80 then 2 else 1)
  else
    (if v ≤ t20 then 1 else if v ≤ t40 then 2 else if v ≤ t60 then 3
      else if v ≤ t80 then 4 else 5)

/-- `_score_by_quintiles` from `app/services/analytics.py`: empty input
gives an empty map, all-identical values give every id the neutral score
3, and otherwise ids are scored 1–5 against the 20/40/60/80th
nearest-rank percentile thresholds of the ascending-sorted values. -/
def quintileThresholds (values : List ℚ) : ℚ × ℚ × ℚ × ℚ :=
  let n := values.length
  let sorted_vals := List.insertionSort (· ≤ ·) values
  (sorted_vals.getD (qidx n (1/5)) 0, sorted_vals.getD (qidx n (2/5)) 0,
    sorted_vals.getD (qidx n (3/5)) 0, sorted_vals.getD (qidx n (4/5)) 0)

def score_by_quintiles (pairs : List (Nat × ℚ)) (smaller : Bool) : Nat → Option Nat :=
  if pairs.length = 0 then fun _ => none
  else
    let values := pairs.map Prod.snd
    if values.all (fun v => v = values.headI) then
      dictUpsert (pairs.map (fun q => (q.1, 3)))
    else
      let t := quintileThresholds values
      dictUpsert (pairs.map (fun q => (q.1, bucketScore smaller t.1 t.2.1 t.2.2.1 t.2.2.2 q.2)))

/-! ## Data model — `app/models.py` (the fields the core reads) -/

/-- An `Order` row as the analytics/alerts core reads it.  `total_amount`
is the exact decimal as `ℚ`; `created_at` is a UTC timestamp in seconds. -/
structure Order where
  id : Nat
  merchant_id : Nat
  customer_id : Nat
  total_amount : ℚ
  created_at : Int
deriving DecidableEq, Repr

/-- An `AlertRule` row. -/
structure AlertRule where
  id : Nat
  merchant_id : Nat
  metric : String
  operator : String
  threshold : ℚ
  time_window_s : Nat
  is_active : Bool
deriving DecidableEq, Repr

/-! ## `app/services/alerts.py` -/

/-- `_is_rule_triggered`: the six-way operator switch; any other operator
string yields `false`. -/
def _is_rule_triggered (rule : AlertRule) (value : ℚ) : Bool :=
  if rule.operator = ">" then decide (value > rule.threshold)
  else if rule.operator = "<" then decide (value < rule.threshold)
  else if rule.operator = ">=" then decide (value ≥ rule.threshold)
  else if rule.operator = "<=" then decide (value ≤ rule.threshold)
  else if rule.operator = "==" then decide (value = rule.threshold)
  else if rule.operator = "!=" then decide (value ≠ rule.threshold)
  else false

/-- `_compute_orders_per_min`: count of the merchant's orders with
`created_at` in the trailing window `[now - window_s, now]` (inclusive),
divided by `max(window_s / 60, 1e-9)` minutes. -/
def _compute_orders_per_min (orders : List Order) (now : Int) (merchant_id : Nat)
    (window_s : Nat) : ℚ :=
  let start := now - (window_s : Int)
  let count := (orders.filter (fun o =>
    o.merchant_id == merchant_id && start ≤ o.created_at && o.created_at ≤ now)).length
  (count : ℚ) / max ((window_s : ℚ) / 60) (1 / 10 ^ 9)

/-- `_compute_aov_window`: SQL `avg(total_amount)` over the merchant's
orders in the trailing window; `0.0` when no rows match. -/
def _compute_aov_window (orders : List Order) (now : Int) (merchant_id : Nat)
    (window_s : Nat) : ℚ :=
  let start := now - (window_s : Int)
  let sel := orders.filter (fun o =>
    o.merchant_id == merchant_id && start ≤ o.created_at && o.created_at ≤ now)
  if sel.length = 0 then 0
  else (sel.map Order.total_amount).sum / (sel.length : ℚ)

/-- `_METRIC_FUNCS`: the metric-name → function table. -/
def metricFunc (name : String) : Option (List Order → Int → Nat → Nat → ℚ) :=
  if name = "orders_per_min" then some _compute_orders_per_min
  else if name = "aov_window" then some _compute_aov_window
  else none

/-- The observable part of the alert event payload built by
`_publish_alert` (the wall-clock `triggered_at` and the rendered `message`
string carry no further information for the verified claims). -/
structure AlertEvent where
  rule_id : Nat
  merchant_id : Nat
  metric : String
  operator : String
  threshold : ℚ
  value : ℚ
  time_window_s : Nat
deriving DecidableEq, Repr

/-- Event constructed by `_publish_alert` for a triggered rule. -/
def mkEvent (r : AlertRule) (value : ℚ) : AlertEvent :=
  ⟨r.id, r.merchant_id, r.metric, r.operator, r.threshold, value, r.time_window_s⟩

/-- The metric cache key `(merchant_id, metric, time_window_s)`. -/
abbrev EvalKey := Nat × String × Nat

/-- Lookup in the per-invocation metric cache (a Python dict). -/
def cacheLookup (cache : List (EvalKey × Option ℚ)) (k : EvalKey) : Option (Option ℚ) :=
  (cache.find? (fun p => p.1 = k)).map (·.2)

/-- Observable state of one `evaluate_rules` invocation: the returned
counters, the events successfully handed to the Alert Publisher, and the
keys for which a metric function was actually invoked. -/
structure EvalState where
  evaluated : Nat
  matched : Nat
  published : List AlertEvent
  metricCalls : List EvalKey
deriving DecidableEq, Repr

/-- The per-rule loop of `evaluate_rules`.  `pubOk r v = false` models
`redis.publish` raising for that event; the exception propagates, so the
loop stops with `.error` carrying the state reached so far (`evaluated`
already incremented for the current rule, `matched` not, nothing
published for it). -/
def evalLoop (orders : List Order) (now : Int) (pubOk : AlertRule → ℚ → Bool) :
    List AlertRule → EvalState → List (EvalKey × Option ℚ) → Except EvalState EvalState
  | [], s, _ => .ok s
  | r :: rest, s, cache =>
    match cacheLookup cache (r.merchant_id, r.metric, r.time_window_s) with
    | some none =>
      evalLoop orders now pubOk rest { s with evaluated := s.evaluated + 1 } cache
    | some (some v) =>
      let s1 : EvalState := { s with evaluated := s.evaluated + 1 }
      if _is_rule_triggered r v then
        if pubOk r v then
          evalLoop orders now pubOk rest
            { s1 with matched := s1.matched + 1, published := s1.published ++ [mkEvent r v] }
            cache
        else .error s1
      else evalLoop orders now pubOk rest s1 cache
    | none =>
      match metricFunc r.metric with
      | none =>
        evalLoop orders now pubOk rest { s with evaluated := s.evaluated + 1 }
          (cache ++ [((r.merchant_id, r.metric, r.time_window_s), none)])
      | some f =>
        let v := f orders now r.merchant_id r.time_window_s
        let s1 : EvalState :=
          { s with
            evaluated := s.evaluated + 1
            metricCalls := s.metricCalls ++ [(r.merchant_id, r.metric, r.time_window_s)] }
        if _is_rule_triggered r v then
          if pubOk r v then
            evalLoop orders now pubOk rest
              { s1 with matched := s1.matched + 1, published := s1.published ++ [mkEvent r v] }
              (cache ++ [((r.merchant_id, r.metric, r.time_window_s), some v)])
          else .error s1
        else
          evalLoop orders now pubOk rest s1
            (cache ++ [((r.merchant_id, r.metric, r.time_window_s), some v)])

/-- `evaluate_rules` from `app/services/alerts.py`: filter the active
rules, order them by `merchant_id` ascending (stable), and run the loop
with an empty cache and zeroed counters. -/
def evaluate_rules (orders : List Order) (now : Int) (pubOk : AlertRule → ℚ → Bool)
    (rules : List AlertRule) : Except EvalState EvalState :=
  evalLoop orders now pubOk
    (List.insertionSort (fun a b => a.merchant_id ≤ b.merchant_id)
      (rules.filter (·.is_active)))
    ⟨0, 0, [], []⟩ []

/-- The final state of a run whether it completed or aborted. -/
def resState : Except EvalState EvalState → EvalState
  | .ok s => s
  | .error s => s

instance {ε α : Type} [DecidableEq ε] [DecidableEq α] : DecidableEq (Except ε α) := fun x y =>
  match x, y with
  | .ok a, .ok b =>
    if h : a = b then isTrue (by rw [h]) else isFalse (fun hh => h (Except.ok.inj hh))
  | .error a, .error b =>
    if h : a = b then isTrue (by rw [h]) else isFalse (fun hh => h (Except.error.inj hh))
  | .ok _, .error _ => isFalse (fun hh => Except.noConfusion hh)
  | .error _, .ok _ => isFalse (fun hh => Except.noConfusion hh)

/-! ## Concrete batch from the spec's Rule Evaluator examples: merchant 2,
six orders inside the trailing 60-second window before `now = 1000`, so
`orders_per_min` computes `6.0`. -/

/-- A publish boundary that always succeeds. -/
def pubAlways : AlertRule → ℚ → Bool := fun _ _ => true

/-- Six orders of merchant 2 inside `[940, 1000]`. -/
def sixOrders : List Order :=
  [⟨1, 2, 101, 10, 950⟩, ⟨2, 2, 102, 10, 955⟩, ⟨3, 2, 103, 10, 960⟩,
   ⟨4, 2, 104, 10, 970⟩, ⟨5, 2, 105, 10, 980⟩, ⟨6, 2, 106, 10, 990⟩]

/-- Active rule: `orders_per_min > 4` over 60 s for merchant 2. -/
def ruleLow : AlertRule := ⟨1, 2, "orders_per_min", ">", 4, 60, true⟩

/-- Active rule: `orders_per_min > 10` over 60 s for merchant 2. -/
def ruleHigh : AlertRule := ⟨2, 2, "orders_per_min", ">", 10, 60, true⟩

/-- Active rule: `orders_per_min > 5` over 60 s for merchant 2. -/
def ruleMid : AlertRule := ⟨3, 2, "orders_per_min", ">", 5, 60, true⟩

/-- Active rule with a metric name absent from `_METRIC_FUNCS`. -/
def ruleUnknown : AlertRule := ⟨4, 2, "bogus", ">", 0, 60, true⟩

/-! ## `app/services/analytics.py` — `rolling_aov` -/

/-- Python `round` to the nearest integer, ties to even (banker's
rounding), on an exact rational. -/
def roundHalfEven (q : ℚ) : Int :=
  let f := q.floor
  let r := q - (f : ℚ)
  if r < 1/2 then f else if r > 1/2 then f + 1 else (if f % 2 = 0 then f else f + 1)

/-- Python `round(x, 2)` on an exact rational. -/
def pyRound2 (q : ℚ) : ℚ := (roundHalfEven (q * 100) : ℚ) / 100

/-- The dict returned by `rolling_aov`: the echoed window string, the
resolved bounds (`from`/`to`, as whole-second UTC timestamps), the order
count and the rounded AOV. -/
structure AOVResult where
  window : List Char
  fromTs : Int
  toTs : Int
  orders : Nat
  aov : ℚ
deriving DecidableEq, Repr

/-- `rolling_aov` from `app/services/analytics.py`: resolve the window
via `parse_window_str` (`none` models the propagated `ValueError`),
aggregate `(count, avg)` over the merchant's orders with `created_at` in
`[now - delta, now]` inclusive, defaulting `avg` to `0.0` when no rows
match, and round the AOV to 2 decimal places. -/
def rolling_aov (orders : List Order) (merchant_id : Nat) (window : List Char)
    (now : Int) : Option AOVResult :=
  match parse_window_str window with
  | none => none
  | some delta =>
    let start_dt := now - delta
    let sel := orders.filter (fun o =>
      o.merchant_id == merchant_id && start_dt ≤ o.created_at && o.created_at ≤ now)
    let aov_value : ℚ :=
      if sel.length = 0 then 0 else (sel.map Order.total_amount).sum / (sel.length : ℚ)
    some ⟨window, start_dt, now, sel.length, pyRound2 aov_value⟩

/-! ## Calendar (proleptic Gregorian, as SQLite `strftime` and Python
`datetime` compute it) -/

/-- Civil date from days since the Unix epoch (Howard Hinnant's
`civil_from_days` algorithm, truncating division as in the reference). -/
def civilFromDays (z0 : Int) : Int × Nat × Nat :=
  let z := z0 + 719468
  let era := (if 0 ≤ z then z else z - 146096) / 146097
  let doe := (z - era * 146097).toNat
  let yoe := (doe - doe / 1460 + doe / 36524 - doe / 146096) / 365
  let doy := doe - (365 * yoe + yoe / 4 - yoe / 100)
  let mp := (5 * doy + 2) / 153
  let d := doy - (153 * mp + 2) / 5 + 1
  let m := if mp < 10 then mp + 3 else mp - 9
  ((yoe : Int) + era * 400 + (if m ≤ 2 then 1 else 0), m, d)

/-- Days since the Unix epoch from a civil date (Hinnant's
`days_from_civil`). -/
def daysFromCivil (y : Int) (m d : Nat) : Int :=
  let y' := if m ≤ 2 then y - 1 else y
  let era := (if 0 ≤ y' then y' else y' - 399) / 400
  let yoe := (y' - era * 400).toNat
  let mp := if 2 < m then m - 3 else m + 9
  let doy := (153 * mp + 2) / 5 + d - 1
  let doe := yoe * 365 + yoe / 4 - yoe / 100 + doy
  era * 146097 + (doe : Int) - 719468

/-- Timestamp (seconds) of midnight on a civil date. -/
def tsOf (y : Int) (m d : Nat) : Int := daysFromCivil y m d * 86400

/-- The `year * 12 + month` encoding of a timestamp's calendar month, as
built by the cohort query (`strftime` on SQLite, `extract` on Postgres).
A month key `"YYYY-MM"` and this integer encode the same information, and
string comparison of the keys agrees with integer comparison of the
encodings for four-digit years. -/
def ymOfSec (t : Int) : Int :=
  let c := civilFromDays (t.fdiv 86400)
  c.1 * 12 + c.2.1

/-! ## `app/services/analytics.py` — `monthly_cohorts` -/

/-- Orders of one merchant (`filter(Order.merchant_id == merchant_id)`). -/
def merchantOrders (orders : List Order) (mid : Nat) : List Order :=
  orders.filter (fun o => o.merchant_id == mid)

/-- Minimum of a list of integers (SQL `min`), `none` on no rows. -/
def minInt : List Int → Option Int
  | [] => none
  | x :: xs => match minInt xs with
    | none => some x
    | some y => some (min x y)

/-- Maximum of a list of integers (SQL `max`), `none` on no rows. -/
def maxInt : List Int → Option Int
  | [] => none
  | x :: xs => match maxInt xs with
    | none => some x
    | some y => some (max x y)

/-- The `firsts` subquery: the month of a customer's first-ever order for
this merchant (`strftime("%Y-%m-01", min(created_at))`, encoded as
`year * 12 + month`). -/
def custFirstYm (orders : List Order) (mid c : Nat) : Option Int :=
  (minInt (((merchantOrders orders mid).filter
    (fun o => o.customer_id == c)).map Order.created_at)).map ymOfSec

/-- The optional inclusive month-bounds filter on the order month. -/
def inBoundsYm (startYm endYm : Option Int) (ym : Int) : Bool :=
  (match startYm with | none => true | some s => decide (s ≤ ym))
    && (match endYm with | none => true | some e => decide (ym ≤ e))

/-- The outer joined-and-filtered orders of the cohort query. -/
def joinedOrders (orders : List Order) (mid : Nat) (startYm endYm : Option Int) :
    List Order :=
  (merchantOrders orders mid).filter (fun o => inBoundsYm startYm endYm (ymOfSec o.created_at))

/-- `count(distinct customer_id)` for the group of cohort month `cym` and
month offset `k` (zero when the group is absent — the dense zero-fill). -/
def activeCount (orders : List Order) (mid : Nat) (startYm endYm : Option Int)
    (cym : Int) (k : Nat) : Nat :=
  (((joinedOrders orders mid startYm endYm).filter (fun o =>
    custFirstYm orders mid o.customer_id == some cym
      && ymOfSec o.created_at == cym + k)).map Order.customer_id).dedup.length

/-- The distinct cohort months with at least one row, ascending (the
source sorts the matrix keys, i.e. `"YYYY-MM"` strings). -/
def cohortMonths (orders : List Order) (mid : Nat) (startYm endYm : Option Int) :
    List Int :=
  List.insertionSort (· ≤ ·)
    (((joinedOrders orders mid startYm endYm).filterMap
      (fun o => custFirstYm orders mid o.customer_id)).dedup)

/-- `max_offset`: the largest month offset among the rows, starting at 0. -/
def maxOffsetOf (orders : List Order) (mid : Nat) (startYm endYm : Option Int) : Nat :=
  (joinedOrders orders mid startYm endYm).foldl (fun acc o =>
    match custFirstYm orders mid o.customer_id with
    | none => acc
    | some cym => max acc (ymOfSec o.created_at - cym).toNat) 0

/-- One output cohort row: the cohort month and the dense cell list
`[m0, …, mMax]`. -/
structure CohortRow where
  cohort : Int
  cells : List Nat
deriving DecidableEq, Repr

/-- The cohort matrix: resolved month bounds (as `year * 12 + month`;
`none` is JSON `null`) and the rows. -/
structure CohortMatrix where
  startYm : Option Int
  endYm : Option Int
  cohorts : List CohortRow
deriving DecidableEq, Repr

/-- `monthly_cohorts` from `app/services/analytics.py` (the SQLite
branch; the Postgres branch buckets months identically).  Month keys are
encoded as `year * 12 + month`. -/
def monthly_cohorts (orders : List Order) (mid : Nat) (start? end? : Option Int) :
    CohortMatrix :=
  let startYm := start?.map ymOfSec
  let endYm := end?.map ymOfSec
  let joined := joinedOrders orders mid startYm endYm
  if joined = [] then ⟨startYm, endYm, []⟩
  else
    let mo := maxOffsetOf orders mid startYm endYm
    let startOut := match startYm with
      | some s => some s
      | none => minInt (joined.map (fun o => ymOfSec o.created_at))
    let endOut := match endYm with
      | some e => some e
      | none => maxInt (joined.map (fun o => ymOfSec o.created_at))
    ⟨startOut, endOut,
      (cohortMonths orders mid startYm endYm).map (fun c =>
        ⟨c, (List.range (mo + 1)).map (fun k => activeCount orders mid startYm endYm c k)⟩)⟩

/-! ## `app/services/analytics.py` — `rfm_scores` -/

/-- A returned RFM record (the `rfm` string is the concatenation of the
digits `r`, `f`, `m` and carries no further information). -/
structure RFMRecord where
  customer_id : Nat
  recency_days : Int
  frequency : Nat
  monetary : ℚ
  r : Nat
  f : Nat
  m : Nat
deriving DecidableEq, Repr

/-- `recency_days`: floored days since the last order, with the huge
sentinel for a missing timestamp (defensive branch in the source). -/
def recencyDays (now : Int) (last? : Option Int) : Int :=
  match last? with
  | some last => (now - last).fdiv 86400
  | none => 10 ^ 9

/-- The grouped aggregate query of `rfm_scores`: per customer (in first-
appearance order) the last order time, order count and summed amount. -/
def rfm_rows (orders : List Order) (mid : Nat) : List (Nat × Option Int × Nat × ℚ) :=
  ((merchantOrders orders mid).map Order.customer_id).dedup.map (fun c =>
    let mine := (merchantOrders orders mid).filter (fun o => o.customer_id == c)
    (c, maxInt (mine.map Order.created_at), mine.length, (mine.map Order.total_amount).sum))

/-- `rfm_scores` from `app/services/analytics.py`. -/
def rfm_scores (orders : List Order) (mid : Nat) (now : Int) : List RFMRecord :=
  let rows := rfm_rows orders mid
  if rows = [] then []
  else
    let r_scores := score_by_quintiles
      (rows.map (fun q => (q.1, ((recencyDays now q.2.1 : Int) : ℚ)))) true
    let f_scores := score_by_quintiles (rows.map (fun q => (q.1, ((q.2.2.1 : Nat) : ℚ)))) false
    let m_scores := score_by_quintiles (rows.map (fun q => (q.1, q.2.2.2))) false
    rows.map (fun q =>
      ⟨q.1, recencyDays now q.2.1, q.2.2.1, pyRound2 q.2.2.2,
        (r_scores q.1).getD 3, (f_scores q.1).getD 3, (m_scores q.1).getD 3⟩)


/-- The spec's cohort example for merchant 1: customer 1 orders in
Jan/Feb/Mar 2024, customer 2 in Feb/Mar, customer 3 in Mar only. -/
def cohOrders : List Order :=
  [⟨1, 1, 1, 10, tsOf 2024 1 10⟩, ⟨2, 1, 1, 10, tsOf 2024 2 12⟩, ⟨3, 1, 1, 10, tsOf 2024 3 5⟩,
   ⟨4, 1, 2, 10, tsOf 2024 2 3⟩, ⟨5, 1, 2, 10, tsOf 2024 3 20⟩,
   ⟨6, 1, 3, 10, tsOf 2024 3 15⟩]

/-- The same example with a repeat order by customer 1 in its cohort
month (same `(cohort, offset)` cell). -/
def cohOrdersDup : List Order := ⟨7, 1, 1, 10, tsOf 2024 1 11⟩ :: cohOrders

/-! ## Lemmas about the Python integer parser -/

theorem isDigit_eq_false_of_isPySpace (c : Char) (hc : isPySpace c = true) :
    c.isDigit = false := by
  simp only [isPySpace, Bool.or_eq_true, decide_eq_true_eq] at hc
  rcases hc with ((((rfl | rfl) | rfl) | rfl) | rfl) | rfl <;> decide

theorem isPySpace_eq_false_of_isDigit (c : Char) (h : c.isDigit = true) :
    isPySpace c = false := by
  cases hsp : isPySpace c with
  | false => rfl
  | true => rw [isDigit_eq_false_of_isPySpace c hsp] at h; exact absurd h (by decide)

theorem dropWhile_eq_self_of_forall_not (p : Char → Bool) (l : List Char)
    (h : ∀ c ∈ l, p c = false) : l.dropWhile p = l := by
  cases l with
  | nil => rfl
  | cons c cs => simp [List.dropWhile_cons, h c (List.mem_cons_self c cs)]

theorem digitsUAux_cons_digit (acc : Nat) (c : Char) (cs : List Char) (hc : c.isDigit = true) :
    digitsUAux acc (c :: cs) = digitsUAux (acc * 10 + digitVal c) cs := by
  conv_lhs => rw [digitsUAux.eq_def]
  simp [hc]

theorem digitsUAux_all_digits (cs : List Char) : ∀ acc : Nat, (∀ c ∈ cs, c.isDigit = true) →
    digitsUAux acc cs = some (cs.foldl (fun a c => a * 10 + digitVal c) acc) := by
  induction cs with
  | nil => intro acc _; rfl
  | cons c cs ih =>
    intro acc h
    have hc : c.isDigit = true := h c (List.mem_cons_self c cs)
    rw [digitsUAux_cons_digit _ _ _ hc, List.foldl_cons]
    exact ih _ (fun x hx => h x (List.mem_cons_of_mem _ hx))

theorem digitsU_all_digits (ds : List Char) (h0 : ds ≠ []) (h : ∀ c ∈ ds, c.isDigit = true) :
    digitsU ds = some (digitsVal ds) := by
  cases ds with
  | nil => exact absurd rfl h0
  | cons c cs =>
    have hc : c.isDigit = true := h c (List.mem_cons_self c cs)
    simp only [digitsU, hc, if_true, digitsVal, List.foldl_cons, Nat.zero_mul, Nat.zero_add]
    exact digitsUAux_all_digits cs _ (fun x hx => h x (List.mem_cons_of_mem _ hx))

theorem pyInt_all_digits (ds : List Char) (h0 : ds ≠ []) (h : ∀ c ∈ ds, c.isDigit = true) :
    pyInt ds = some (digitsVal ds) := by
  have hns : ∀ c ∈ ds, isPySpace c = false :=
    fun c hc => isPySpace_eq_false_of_isDigit c (h c hc)
  have h1 : ds.dropWhile isPySpace = ds := dropWhile_eq_self_of_forall_not _ _ hns
  have h2 : ds.reverse.dropWhile isPySpace = ds.reverse :=
    dropWhile_eq_self_of_forall_not _ _ (fun c hc => hns c (List.mem_reverse.mp hc))
  obtain ⟨c, cs, rfl⟩ := List.exists_cons_of_ne_nil h0
  have hc : c.isDigit = true := h c (List.mem_cons_self c cs)
  have hplus : ¬(c = '+') := fun hcp => by rw [hcp] at hc; exact absurd hc (by decide)
  have hminus : ¬(c = '-') := fun hcm => by rw [hcm] at hc; exact absurd hc (by decide)
  simp only [pyInt, h1, h2, List.reverse_reverse, if_neg hplus, if_neg hminus,
    digitsU_all_digits _ h0 h, Option.map_some]
  rfl

/-! ## Lemmas about the `strptime` matchers -/

theorem digit_char_cases (c : Char) (h : c.isDigit = true) :
    c = '0' ∨ c = '1' ∨ c = '2' ∨ c = '3' ∨ c = '4' ∨ c = '5' ∨ c = '6' ∨ c = '7'
      ∨ c = '8' ∨ c = '9' := by
  simp [Char.isDigit] at h
  obtain ⟨h1, h2⟩ := h
  have h1' : 48 ≤ c.val.toNat := h1
  have h2' : c.val.toNat ≤ 57 := h2
  have key : ∀ d : Char, c.val.toNat = d.val.toNat → c = d := by
    intro d hd
    exact Char.ext (UInt32.ext hd)
  have hcases : c.val.toNat = 48 ∨ c.val.toNat = 49 ∨ c.val.toNat = 50 ∨ c.val.toNat = 51
      ∨ c.val.toNat = 52 ∨ c.val.toNat = 53 ∨ c.val.toNat = 54 ∨ c.val.toNat = 55
      ∨ c.val.toNat = 56 ∨ c.val.toNat = 57 := by omega
  rcases hcases with hc | hc | hc | hc | hc | hc | hc | hc | hc | hc
  · exact Or.inl (key '0' hc)
  · exact Or.inr (Or.inl (key '1' hc))
  · exact Or.inr (Or.inr (Or.inl (key '2' hc)))
  · exact Or.inr (Or.inr (Or.inr (Or.inl (key '3' hc))))
  · exact Or.inr (Or.inr (Or.inr (Or.inr (Or.inl (key '4' hc)))))
  · exact Or.inr (Or.inr (Or.inr (Or.inr (Or.inr (Or.inl (key '5' hc))))))
  · exact Or.inr (Or.inr (Or.inr (Or.inr (Or.inr (Or.inr (Or.inl (key '6' hc)))))))
  · exact Or.inr (Or.inr (Or.inr (Or.inr (Or.inr (Or.inr (Or.inr (Or.inl (key '7' hc))))))))
  · exact Or.inr (Or.inr (Or.inr (Or.inr (Or.inr (Or.inr (Or.inr (Or.inr (Or.inl (key '8' hc)))))))))
  · exact Or.inr (Or.inr (Or.inr (Or.inr (Or.inr (Or.inr (Or.inr (Or.inr (Or.inr (key '9' hc)))))))))

theorem one_le_digitVal (c : Char) (h : c.isDigit = true) (h0 : c ≠ '0') : 1 ≤ digitVal c := by
  rcases digit_char_cases c h with rfl | rfl | rfl | rfl | rfl | rfl | rfl | rfl | rfl | rfl
  · exact absurd rfl h0
  all_goals decide

theorem digitVal_le_9 (c : Char) (h : c.isDigit = true) : digitVal c ≤ 9 := by
  rcases digit_char_cases c h with rfl | rfl | rfl | rfl | rfl | rfl | rfl | rfl | rfl | rfl
  all_goals decide

theorem digitVal_c0 : digitVal '0' = 0 := by decide

theorem digitVal_c1 : digitVal '1' = 1 := by decide

theorem digitVal_c2 : digitVal '2' = 2 := by decide

theorem digitVal_c3 : digitVal '3' = 3 := by decide

theorem digitVal_c4 : digitVal '4' = 4 := by decide

theorem digitVal_c5 : digitVal '5' = 5 := by decide

theorem digitVal_c6 : digitVal '6' = 6 := by decide

theorem digitVal_c7 : digitVal '7' = 7 := by decide

theorem digitVal_c8 : digitVal '8' = 8 := by decide

theorem digitVal_c9 : digitVal '9' = 9 := by decide

theorem digitsVal_singleton (c : Char) : digitsVal [c] = digitVal c := by
  simp [digitsVal]

theorem digitsVal_pair (c d : Char) : digitsVal [c, d] = digitVal c * 10 + digitVal d := by
  simp [digitsVal]

theorem digitsVal_four (a b c d : Char) :
    digitsVal [a, b, c, d]
      = digitVal a * 1000 + digitVal b * 100 + digitVal c * 10 + digitVal d := by
  simp [digitsVal]; ring

theorem matchLit_sound (ch : Char) (l r : List Char) (h : matchLit ch l = some r) :
    l = ch :: r := by
  rcases l with _ | ⟨c, cs⟩
  · simp [matchLit] at h
  · by_cases hc : c = ch
    · subst hc; simp [matchLit] at h; rw [h]
    · simp [matchLit, hc] at h

theorem matchLit_complete (ch : Char) (r : List Char) : matchLit ch (ch :: r) = some r := by
  simp [matchLit]

theorem matchYear_sound (cs r : List Char) (y : Nat) (h : matchYear cs = some (y, r)) :
    ∃ yd, cs = yd ++ r ∧ yd.length = 4 ∧ (∀ c ∈ yd, c.isDigit = true) ∧ digitsVal yd = y := by
  rcases cs with _ | ⟨a, _ | ⟨b, _ | ⟨c, _ | ⟨d, rest⟩⟩⟩⟩
  · simp [matchYear] at h
  · simp [matchYear] at h
  · simp [matchYear] at h
  · simp [matchYear] at h
  · by_cases hd : a.isDigit = true ∧ b.isDigit = true ∧ c.isDigit = true ∧ d.isDigit = true
    · rw [matchYear, if_pos hd] at h
      obtain ⟨rfl, rfl⟩ : digitVal a * 1000 + digitVal b * 100 + digitVal c * 10 + digitVal d = y
          ∧ rest = r := by
        have := Option.some.inj h
        exact ⟨congrArg Prod.fst this, congrArg Prod.snd this⟩
      refine ⟨[a, b, c, d], rfl, rfl, ?_, ?_⟩
      · intro x hx
        simp only [List.mem_cons, List.not_mem_nil, or_false] at hx
        rcases hx with rfl | rfl | rfl | rfl
        · exact hd.1
        · exact hd.2.1
        · exact hd.2.2.1
        · exact hd.2.2.2
      · exact digitsVal_four a b c d
    · rw [matchYear, if_neg hd] at h
      exact absurd h (by simp)

theorem matchYear_complete (yd r : List Char) (hl : yd.length = 4)
    (hd : ∀ c ∈ yd, c.isDigit = true) :
    matchYear (yd ++ r) = some (digitsVal yd, r) := by
  rcases yd with _ | ⟨a, yd⟩; · simp at hl
  rcases yd with _ | ⟨b, yd⟩; · simp at hl
  rcases yd with _ | ⟨c, yd⟩; · simp at hl
  rcases yd with _ | ⟨d, yd⟩; · simp at hl
  rcases yd with _ | ⟨e, yd⟩
  · have ha : a.isDigit = true := hd a (by simp)
    have hb : b.isDigit = true := hd b (by simp)
    have hc : c.isDigit = true := hd c (by simp)
    have hd' : d.isDigit = true := hd d (by simp)
    rw [show ([a, b, c, d] ++ r) = a :: b :: c :: d :: r by simp, matchYear,
      if_pos ⟨ha, hb, hc, hd'⟩, digitsVal_four]
  · simp at hl

theorem matchMonth_sound (cs r : List Char) (m : Nat) (h : matchMonth cs = some (m, r)) :
    ∃ md, cs = md ++ r ∧ (∀ c ∈ md, c.isDigit = true) ∧ (md.length = 1 ∨ md.length = 2)
      ∧ digitsVal md = m ∧ 1 ≤ m ∧ m ≤ 12 := by
  rcases cs with _ | ⟨c, cs⟩
  · simp [matchMonth] at h
  by_cases h1 : c = '1'
  · subst h1
    rcases cs with _ | ⟨d, rest⟩
    · simp [matchMonth] at h
      obtain ⟨rfl, rfl⟩ := h
      exact ⟨['1'], by simp, by decide, Or.inl rfl, by decide, by decide, by decide⟩
    · by_cases hd : d = '0' ∨ d = '1' ∨ d = '2'
      · rcases hd with rfl | rfl | rfl
        · simp [matchMonth] at h
          obtain ⟨rfl, rfl⟩ := h
          exact ⟨['1', '0'], by simp, by decide, Or.inr rfl, by decide, by decide, by decide⟩
        · simp [matchMonth] at h
          obtain ⟨rfl, rfl⟩ := h
          exact ⟨['1', '1'], by simp, by decide, Or.inr rfl, by decide, by decide, by decide⟩
        · simp [matchMonth] at h
          obtain ⟨rfl, rfl⟩ := h
          exact ⟨['1', '2'], by simp, by decide, Or.inr rfl, by decide, by decide, by decide⟩
      · push_neg at hd
        simp [matchMonth, hd.1, hd.2.1, hd.2.2] at h
        obtain ⟨rfl, rfl⟩ := h
        exact ⟨['1'], by simp, by decide, Or.inl rfl, by decide, by decide, by decide⟩
  by_cases h0 : c = '0'
  · subst h0
    rcases cs with _ | ⟨d, rest⟩
    · simp [matchMonth] at h
    · by_cases hd : d.isDigit = true ∧ d ≠ '0'
      · simp [matchMonth, hd.1, hd.2] at h
        obtain ⟨rfl, rfl⟩ := h
        refine ⟨['0', d], by simp, ?_, Or.inr rfl, ?_, ?_, ?_⟩
        · intro x hx
          simp only [List.mem_cons, List.not_mem_nil, or_false] at hx
          rcases hx with rfl | rfl
          · decide
          · exact hd.1
        · rw [digitsVal_pair, digitVal_c0]; omega
        · exact one_le_digitVal d hd.1 hd.2
        · have := digitVal_le_9 d hd.1; omega
      · rw [show matchMonth ('0' :: d :: rest)
            = (if d.isDigit = true ∧ d ≠ '0' then some (digitVal d, rest) else none) by
              simp [matchMonth], if_neg hd] at h
        exact absurd h (by simp)
  by_cases hdig : c.isDigit = true
  · simp [matchMonth, h1, h0, hdig] at h
    obtain ⟨rfl, rfl⟩ := h
    refine ⟨[c], by simp, by simp [hdig], Or.inl rfl, digitsVal_singleton c, ?_, ?_⟩
    · exact one_le_digitVal c hdig h0
    · have := digitVal_le_9 c hdig; omega
  · simp [matchMonth, h1, h0, hdig] at h

theorem matchMonth_complete (md r : List Char) (hd : ∀ c ∈ md, c.isDigit = true)
    (hl : md.length = 1 ∨ md.length = 2) (h1 : 1 ≤ digitsVal md) (h12 : digitsVal md ≤ 12)
    (hr : ∀ d rest, r = d :: rest → d.isDigit = false) :
    matchMonth (md ++ r) = some (digitsVal md, r) := by
  rcases md with _ | ⟨c, md⟩; · simp at hl
  rcases md with _ | ⟨d, md⟩
  · have hc : c.isDigit = true := hd c (by simp)
    rw [digitsVal_singleton] at h1 h12 ⊢
    have hc0 : c ≠ '0' := by
      intro hh; subst hh; exact absurd h1 (by decide)
    by_cases hc1 : c = '1'
    · subst hc1
      rcases r with _ | ⟨x, rest⟩
      · simp [matchMonth]; decide
      · have hx : x.isDigit = false := hr x rest rfl
        have hx0 : ¬(x = '0') := fun hh => by subst hh; exact absurd hx (by decide)
        have hx1 : ¬(x = '1') := fun hh => by subst hh; exact absurd hx (by decide)
        have hx2 : ¬(x = '2') := fun hh => by subst hh; exact absurd hx (by decide)
        simp [matchMonth, hx0, hx1, hx2]
        decide
    · simp [matchMonth, hc1, hc0, hc]
  rcases md with _ | ⟨e, md⟩
  · have hc : c.isDigit = true := hd c (by simp)
    have hdd : d.isDigit = true := hd d (by simp)
    rw [digitsVal_pair] at h1 h12 ⊢
    have hc9 := digitVal_le_9 c hc
    have hd9 := digitVal_le_9 d hdd
    rcases digit_char_cases c hc with rfl | rfl | rfl | rfl | rfl | rfl | rfl | rfl | rfl | rfl
    · have hdv : 1 ≤ digitVal d := by rw [digitVal_c0] at h1; omega
      have hd0 : d ≠ '0' := by
        intro hh; subst hh; exact absurd hdv (by decide)
      simp [matchMonth, hdd, hd0, digitVal_c0]
    · have hdv : digitVal d ≤ 2 := by
        rw [digitVal_c1] at h12
        omega
      have hd012 : d = '0' ∨ d = '1' ∨ d = '2' := by
        rcases digit_char_cases d hdd with rfl | rfl | rfl | rfl | rfl | rfl | rfl | rfl | rfl | rfl
        · exact Or.inl rfl
        · exact Or.inr (Or.inl rfl)
        · exact Or.inr (Or.inr rfl)
        all_goals exact absurd hdv (by decide)
      rcases hd012 with rfl | rfl | rfl <;> simp [matchMonth] <;> decide
    all_goals exfalso
    all_goals simp only [digitVal_c2, digitVal_c3, digitVal_c4, digitVal_c5, digitVal_c6,
      digitVal_c7, digitVal_c8, digitVal_c9] at h12
    all_goals omega
  · simp at hl

theorem matchDay_sound (cs r : List Char) (m : Nat) (h : matchDay cs = some (m, r)) :
    ∃ dd, cs = dd ++ r ∧ (∀ c ∈ dd, c.isDigit = true) ∧ (dd.length = 1 ∨ dd.length = 2)
      ∧ digitsVal dd = m ∧ 1 ≤ m := by
  rcases cs with _ | ⟨c, cs⟩
  · simp [matchDay] at h
  by_cases h3 : c = '3'
  · subst h3
    rcases cs with _ | ⟨d, rest⟩
    · simp [matchDay] at h
      obtain ⟨rfl, rfl⟩ := h
      exact ⟨['3'], by simp, by decide, Or.inl rfl, by decide, by decide⟩
    · by_cases hd : d = '0' ∨ d = '1'
      · rcases hd with rfl | rfl
        · simp [matchDay] at h
          obtain ⟨rfl, rfl⟩ := h
          exact ⟨['3', '0'], by simp, by decide, Or.inr rfl, by decide, by decide⟩
        · simp [matchDay] at h
          obtain ⟨rfl, rfl⟩ := h
          exact ⟨['3', '1'], by simp, by decide, Or.inr rfl, by decide, by decide⟩
      · push_neg at hd
        simp [matchDay, hd.1, hd.2] at h
        obtain ⟨rfl, rfl⟩ := h
        exact ⟨['3'], by simp, by decide, Or.inl rfl, by decide, by decide⟩
  by_cases h12 : c = '1' ∨ c = '2'
  · have hcd : c.isDigit = true := by rcases h12 with rfl | rfl <;> decide
    have hc0 : c ≠ '0' := by rcases h12 with rfl | rfl <;> decide
    have hmm : matchDay (c :: cs)
        = (match cs with
           | d :: rest => if d.isDigit = true then some (digitVal c * 10 + digitVal d, rest)
               else some (digitVal c, cs)
           | [] => some (digitVal c, [])) := by
      rcases h12 with rfl | rfl <;> (rcases cs with _ | ⟨d, rest⟩ <;> simp [matchDay])
    rw [hmm] at h
    rcases cs with _ | ⟨d, rest⟩
    · simp at h
      obtain ⟨rfl, rfl⟩ := h
      refine ⟨[c], by simp, by simp [hcd], Or.inl rfl, digitsVal_singleton c, ?_⟩
      exact one_le_digitVal c hcd hc0
    · by_cases hdd : d.isDigit = true
      · simp [hdd] at h
        obtain ⟨rfl, rfl⟩ := h
        refine ⟨[c, d], by simp, ?_, Or.inr rfl, digitsVal_pair c d, ?_⟩
        · intro x hx
          simp only [List.mem_cons, List.not_mem_nil, or_false] at hx
          rcases hx with rfl | rfl
          · exact hcd
          · exact hdd
        · have := one_le_digitVal c hcd hc0; omega
      · simp [hdd] at h
        obtain ⟨rfl, rfl⟩ := h
        refine ⟨[c], by simp, by simp [hcd], Or.inl rfl, digitsVal_singleton c, ?_⟩
        exact one_le_digitVal c hcd hc0
  push_neg at h12
  by_cases h0 : c = '0'
  · subst h0
    rcases cs with _ | ⟨d, rest⟩
    · simp [matchDay] at h
    · by_cases hd : d.isDigit = true ∧ d ≠ '0'
      · simp [matchDay, hd.1, hd.2] at h
        obtain ⟨rfl, rfl⟩ := h
        refine ⟨['0', d], by simp, ?_, Or.inr rfl, ?_, ?_⟩
        · intro x hx
          simp only [List.mem_cons, List.not_mem_nil, or_false] at hx
          rcases hx with rfl | rfl
          · decide
          · exact hd.1
        · rw [digitsVal_pair, digitVal_c0]; omega
        · exact one_le_digitVal d hd.1 hd.2
      · rw [show matchDay ('0' :: d :: rest)
            = (if d.isDigit = true ∧ d ≠ '0' then some (digitVal d, rest) else none) by
              simp [matchDay], if_neg hd] at h
        exact absurd h (by simp)
  by_cases hdig : c.isDigit = true
  · simp [matchDay, h3, h12.1, h12.2, h0, hdig] at h
    obtain ⟨rfl, rfl⟩ := h
    refine ⟨[c], by simp, by simp [hdig], Or.inl rfl, digitsVal_singleton c, ?_⟩
    exact one_le_digitVal c hdig h0
  · simp [matchDay, h3, h12.1, h12.2, h0, hdig] at h

theorem matchDay_complete (dd : List Char) (hd : ∀ c ∈ dd, c.isDigit = true)
    (hl : dd.length = 1 ∨ dd.length = 2) (h1 : 1 ≤ digitsVal dd) (h31 : digitsVal dd ≤ 31) :
    matchDay dd = some (digitsVal dd, []) := by
  rcases dd with _ | ⟨c, dd⟩; · simp at hl
  rcases dd with _ | ⟨d, dd⟩
  · have hc : c.isDigit = true := hd c (by simp)
    rw [digitsVal_singleton] at h1 ⊢
    have hc0 : c ≠ '0' := by
      intro hh; subst hh; exact absurd h1 (by decide)
    rcases digit_char_cases c hc with rfl | rfl | rfl | rfl | rfl | rfl | rfl | rfl | rfl | rfl <;>
      first
        | (exact absurd rfl hc0)
        | decide
  rcases dd with _ | ⟨e, dd⟩
  · have hc : c.isDigit = true := hd c (by simp)
    have hdd : d.isDigit = true := hd d (by simp)
    rw [digitsVal_pair] at h1 h31 ⊢
    have hd9 := digitVal_le_9 d hdd
    rcases digit_char_cases c hc with rfl | rfl | rfl | rfl | rfl | rfl | rfl | rfl | rfl | rfl
    · have hdv : 1 ≤ digitVal d := by rw [digitVal_c0] at h1; omega
      have hd0 : d ≠ '0' := by
        intro hh; subst hh; exact absurd hdv (by decide)
      simp [matchDay, hdd, hd0, digitVal_c0]
    · simp [matchDay, hdd]
    · simp [matchDay, hdd]
    · have hdv : digitVal d ≤ 1 := by
        rw [digitVal_c3] at h31
        omega
      have hd01 : d = '0' ∨ d = '1' := by
        rcases digit_char_cases d hdd with rfl | rfl | rfl | rfl | rfl | rfl | rfl | rfl | rfl | rfl
        · exact Or.inl rfl
        · exact Or.inr rfl
        all_goals exact absurd hdv (by decide)
      rcases hd01 with rfl | rfl <;> simp [matchDay] <;> decide
    all_goals exfalso
    all_goals simp only [digitVal_c4, digitVal_c5, digitVal_c6, digitVal_c7, digitVal_c8,
      digitVal_c9] at h31
    all_goals omega
  · simp at hl

theorem strptimeYm_eq_some_iff (cs : List Char) (pd : PyDate) :
    strptimeYm cs = some pd ↔
      ∃ yd md, cs = yd ++ '-' :: md
        ∧ yd.length = 4 ∧ (∀ c ∈ yd, c.isDigit = true)
        ∧ (md.length = 1 ∨ md.length = 2) ∧ (∀ c ∈ md, c.isDigit = true)
        ∧ 1 ≤ digitsVal yd ∧ 1 ≤ digitsVal md ∧ digitsVal md ≤ 12
        ∧ pd = ⟨digitsVal yd, digitsVal md, 1⟩ := by
  constructor
  · intro h
    unfold strptimeYm at h
    cases hy : matchYear cs with
    | none => rw [hy] at h; simp at h
    | some p =>
      obtain ⟨y, r1⟩ := p
      rw [hy] at h
      dsimp only at h
      cases hl : matchLit '-' r1 with
      | none => rw [hl] at h; simp at h
      | some r2 =>
        rw [hl] at h
        dsimp only at h
        cases hm : matchMonth r2 with
        | none => rw [hm] at h; simp at h
        | some q =>
          obtain ⟨m, r3⟩ := q
          rw [hm] at h
          dsimp only at h
          by_cases h3 : r3 = []
          · subst h3
            by_cases hy1 : 1 ≤ y
            · simp only [if_true, hy1, Option.some.injEq, reduceIte] at h
              obtain ⟨yd, hcs, hylen, hydig, hyval⟩ := matchYear_sound cs r1 y hy
              have hr1 : r1 = '-' :: r2 := matchLit_sound '-' r1 r2 hl
              obtain ⟨md, hr2, hmdig, hmlen, hmval, hm1, hm12⟩ :=
                matchMonth_sound r2 [] m hm
              rw [List.append_nil] at hr2
              refine ⟨yd, md, ?_, hylen, hydig, hmlen, hmdig, ?_, ?_, ?_, ?_⟩
              · rw [hcs, hr1, hr2]
              · rw [hyval]; exact hy1
              · rw [hmval]; exact hm1
              · rw [hmval]; exact hm12
              · rw [← h, hyval, hmval]
            · simp [hy1] at h
          · simp [h3] at h
  · rintro ⟨yd, md, rfl, hylen, hydig, hmlen, hmdig, hy1, hm1, hm12, rfl⟩
    have hmm : matchMonth md = some (digitsVal md, []) := by
      have := matchMonth_complete md [] hmdig hmlen hm1 hm12 (by intro d rest hd; cases hd)
      rwa [List.append_nil] at this
    unfold strptimeYm
    rw [matchYear_complete yd ('-' :: md) hylen hydig]
    dsimp only
    rw [matchLit_complete]
    dsimp only
    rw [hmm]
    simp [hy1]

theorem strptimeYm_two_dash_none (yd md dd : List Char) (hylen : yd.length = 4)
    (hydig : ∀ c ∈ yd, c.isDigit = true) (hmdig : ∀ c ∈ md, c.isDigit = true)
    (hmlen : md.length = 1 ∨ md.length = 2) (hm1 : 1 ≤ digitsVal md)
    (hm12 : digitsVal md ≤ 12) :
    strptimeYm (yd ++ '-' :: (md ++ '-' :: dd)) = none := by
  have hmm : matchMonth (md ++ '-' :: dd) = some (digitsVal md, '-' :: dd) := by
    refine matchMonth_complete md ('-' :: dd) hmdig hmlen hm1 hm12 ?_
    intro d rest hd
    obtain ⟨rfl, -⟩ : d = '-' ∧ rest = dd := by
      injection hd with h1 h2; exact ⟨h1.symm, h2.symm⟩
    decide
  unfold strptimeYm
  rw [matchYear_complete yd ('-' :: (md ++ '-' :: dd)) hylen hydig]
  dsimp only
  rw [matchLit_complete]
  dsimp only
  rw [hmm]
  simp

theorem strptimeYmd_eq_some_iff (cs : List Char) (pd : PyDate) :
    strptimeYmd cs = some pd ↔
      ∃ yd md dd, cs = yd ++ '-' :: (md ++ '-' :: dd)
        ∧ yd.length = 4 ∧ (∀ c ∈ yd, c.isDigit = true)
        ∧ (md.length = 1 ∨ md.length = 2) ∧ (∀ c ∈ md, c.isDigit = true)
        ∧ (dd.length = 1 ∨ dd.length = 2) ∧ (∀ c ∈ dd, c.isDigit = true)
        ∧ 1 ≤ digitsVal yd ∧ 1 ≤ digitsVal md ∧ digitsVal md ≤ 12
        ∧ 1 ≤ digitsVal dd ∧ digitsVal dd ≤ daysInMonth (digitsVal yd) (digitsVal md)
        ∧ pd = ⟨digitsVal yd, digitsVal md, digitsVal dd⟩ := by
  constructor
  · intro h
    unfold strptimeYmd at h
    cases hy : matchYear cs with
    | none => rw [hy] at h; simp at h
    | some p =>
      obtain ⟨y, r1⟩ := p
      rw [hy] at h
      dsimp only at h
      cases hl : matchLit '-' r1 with
      | none => rw [hl] at h; simp at h
      | some r2 =>
        rw [hl] at h
        dsimp only at h
        cases hm : matchMonth r2 with
        | none => rw [hm] at h; simp at h
        | some q =>
          obtain ⟨m, r3⟩ := q
          rw [hm] at h
          dsimp only at h
          cases hl2 : matchLit '-' r3 with
          | none => rw [hl2] at h; simp at h
          | some r4 =>
            rw [hl2] at h
            dsimp only at h
            cases hdm : matchDay r4 with
            | none => rw [hdm] at h; simp at h
            | some w =>
              obtain ⟨d, r5⟩ := w
              rw [hdm] at h
              dsimp only at h
              by_cases h5 : r5 = []
              · subst h5
                by_cases hok : 1 ≤ y ∧ 1 ≤ d ∧ d ≤ daysInMonth y m
                · simp only [if_true, hok, Option.some.injEq, reduceIte,
                    and_self, hok.1, hok.2.1, hok.2.2] at h
                  obtain ⟨yd, hcs, hylen, hydig, hyval⟩ := matchYear_sound cs r1 y hy
                  have hr1 : r1 = '-' :: r2 := matchLit_sound '-' r1 r2 hl
                  obtain ⟨md, hr2, hmdig, hmlen, hmval, hm1, hm12⟩ :=
                    matchMonth_sound r2 r3 m hm
                  have hr3 : r3 = '-' :: r4 := matchLit_sound '-' r3 r4 hl2
                  obtain ⟨dl, hr4, hddig, hdlen, hdval, hd1⟩ := matchDay_sound r4 [] d hdm
                  rw [List.append_nil] at hr4
                  refine ⟨yd, md, dl, ?_, hylen, hydig, hmlen, hmdig, hdlen, hddig,
                    ?_, ?_, ?_, ?_, ?_, ?_⟩
                  · rw [hcs, hr1, hr2, hr3, hr4]
                  · rw [hyval]; exact hok.1
                  · rw [hmval]; exact hm1
                  · rw [hmval]; exact hm12
                  · rw [hdval]; exact hok.2.1
                  · rw [hdval, hyval, hmval]; exact hok.2.2
                  · rw [← h, hyval, hmval, hdval]
                · simp [hok] at h
              · simp [h5] at h
  · rintro ⟨yd, md, dd, rfl, hylen, hydig, hmlen, hmdig, hdlen, hddig,
      hy1, hm1, hm12, hd1, hdim, rfl⟩
    have hmm : matchMonth (md ++ '-' :: dd) = some (digitsVal md, '-' :: dd) := by
      refine matchMonth_complete md ('-' :: dd) hmdig hmlen hm1 hm12 ?_
      intro d rest hd
      obtain ⟨rfl, -⟩ : d = '-' ∧ rest = dd := by
        injection hd with h1 h2; exact ⟨h1.symm, h2.symm⟩
      decide
    have hd31 : digitsVal dd ≤ 31 := by
      refine le_trans hdim ?_
      unfold daysInMonth
      split
      · split <;> omega
      · split <;> omega
    have hdd' : matchDay dd = some (digitsVal dd, []) := matchDay_complete dd hddig hdlen hd1 hd31
    unfold strptimeYmd
    rw [matchYear_complete yd ('-' :: (md ++ '-' :: dd)) hylen hydig]
    dsimp only
    rw [matchLit_complete]
    dsimp only
    rw [hmm]
    dsimp only
    rw [matchLit_complete]
    dsimp only
    rw [hdd']
    simp [hy1, hd1, hdim]

/-- C10 (counterexample): the claim states that `parse_monthish` returns a
datetime exactly when the string matches `YYYY-MM` or `YYYY-MM-DD`.  The
input `"2024-1"` matches neither shape (the month is a single digit), yet
`parse_monthish` succeeds, because CPython's `%m` accepts an unpadded
month. -/
theorem parse_monthish_shape_counterexample :
    parse_monthish (some ['2', '0', '2', '4', '-', '1']) = some ⟨2024, 1, 1⟩
      ∧ strictYmShape ['2', '0', '2', '4', '-', '1'] = false
      ∧ strictYmdShape ['2', '0', '2', '4', '-', '1'] = false := by
  refine ⟨by rfl, by rfl, by rfl⟩

/-- C10 (amended): `parse_monthish` is total and never raises: `None` and
the empty string map to `none`, and a string is parsed to a datetime
exactly when it is four digits, a dash and a one-or-two digit month
(optionally followed by a dash and a one-or-two digit day), denoting a
valid calendar date with year ≥ 1; every other string yields `none`, so a
malformed bound is treated as absent rather than as an error. -/
theorem parse_monthish_characterization :
    parse_monthish none = none
    ∧ parse_monthish (some []) = none
    ∧ (∀ (cs : List Char) (pd : PyDate),
        parse_monthish (some cs) = some pd ↔
          ((∃ yd md, cs = yd ++ '-' :: md
              ∧ yd.length = 4 ∧ (∀ c ∈ yd, c.isDigit = true)
              ∧ (md.length = 1 ∨ md.length = 2) ∧ (∀ c ∈ md, c.isDigit = true)
              ∧ 1 ≤ digitsVal yd ∧ 1 ≤ digitsVal md ∧ digitsVal md ≤ 12
              ∧ pd = ⟨digitsVal yd, digitsVal md, 1⟩)
            ∨ (∃ yd md dd, cs = yd ++ '-' :: (md ++ '-' :: dd)
              ∧ yd.length = 4 ∧ (∀ c ∈ yd, c.isDigit = true)
              ∧ (md.length = 1 ∨ md.length = 2) ∧ (∀ c ∈ md, c.isDigit = true)
              ∧ (dd.length = 1 ∨ dd.length = 2) ∧ (∀ c ∈ dd, c.isDigit = true)
              ∧ 1 ≤ digitsVal yd ∧ 1 ≤ digitsVal md ∧ digitsVal md ≤ 12
              ∧ 1 ≤ digitsVal dd ∧ digitsVal dd ≤ daysInMonth (digitsVal yd) (digitsVal md)
              ∧ pd = ⟨digitsVal yd, digitsVal md, digitsVal dd⟩))) := by
  refine ⟨rfl, rfl, ?_⟩
  intro cs pd
  constructor
  · intro h
    unfold parse_monthish at h
    dsimp only at h
    by_cases hnil : cs = []
    · rw [if_pos hnil] at h; exact absurd h (by simp)
    · rw [if_neg hnil] at h
      cases hym : strptimeYm cs with
      | some d =>
        rw [hym] at h
        obtain rfl : d = pd := Option.some.inj h
        exact Or.inl (by simpa using (strptimeYm_eq_some_iff cs _).mp hym)
      | none =>
        rw [hym] at h
        exact Or.inr (by simpa using (strptimeYmd_eq_some_iff cs pd).mp h)
  · intro h
    rcases h with ⟨yd, md, rfl, hylen, hydig, hmlen, hmdig, hy1, hm1, hm12, rfl⟩
      | ⟨yd, md, dd, rfl, hylen, hydig, hmlen, hmdig, hdlen, hddig, hy1, hm1, hm12,
          hd1, hdim, rfl⟩
    · have hym : strptimeYm (yd ++ '-' :: md) = some ⟨digitsVal yd, digitsVal md, 1⟩ :=
        (strptimeYm_eq_some_iff _ _).mpr
          ⟨yd, md, rfl, hylen, hydig, hmlen, hmdig, hy1, hm1, hm12, rfl⟩
      have hnil : yd ++ '-' :: md ≠ [] := by
        intro hh
        have := congrArg List.length hh
        simp [hylen] at this
      unfold parse_monthish
      dsimp only
      rw [if_neg hnil, hym]
    · have hym := strptimeYm_two_dash_none yd md dd hylen hydig hmdig hmlen hm1 hm12
      have hymd : strptimeYmd (yd ++ '-' :: (md ++ '-' :: dd))
          = some ⟨digitsVal yd, digitsVal md, digitsVal dd⟩ :=
        (strptimeYmd_eq_some_iff _ _).mpr
          ⟨yd, md, dd, rfl, hylen, hydig, hmlen, hmdig, hdlen, hddig,
            hy1, hm1, hm12, hd1, hdim, rfl⟩
      have hnil : yd ++ '-' :: (md ++ '-' :: dd) ≠ [] := by
        intro hh
        have := congrArg List.length hh
        simp [hylen] at this
      unfold parse_monthish
      dsimp only
      rw [if_neg hnil, hym]
      dsimp only
      rw [hymd]

/-- C3 (counterexample): the claim states that `parse_duration` raises
`InvalidWindowFormat` whenever the final unit character is not in
`{d, w, m, y}`.  On input `"1D"` the final character `'D'` is not in that
set, yet the code lowercases the unit and succeeds with one day. -/
theorem parse_window_str_case_counterexample :
    parse_window_str ['1', 'D'] = some 86400
      ∧ ('D' : Char) ∉ (['d', 'w', 'm', 'y'] : List Char) := by
  constructor
  · rfl
  · decide

/-- C3 (amended): `parse_window_str` maps `"30d"`, `"12w"`, `"6m"`, `"1y"`
to exactly 30, 84, 180 and 365 days of seconds; it fails exactly when the
input is shorter than 2 characters (including empty), the prefix before
the final character is not accepted by Python `int` (which also admits an
optional sign, surrounding whitespace and underscore separators), or the
final character lowercased is not in `{d, w, m, y}`; and on one-or-more
digits followed by a unit character it succeeds with the corresponding
duration. -/
theorem parse_window_str_correct :
    parse_window_str ['3', '0', 'd'] = some (30 * 86400)
    ∧ parse_window_str ['1', '2', 'w'] = some (84 * 86400)
    ∧ parse_window_str ['6', 'm'] = some (180 * 86400)
    ∧ parse_window_str ['1', 'y'] = some (365 * 86400)
    ∧ (∀ w : List Char, parse_window_str w = none ↔
        (w.length < 2 ∨ pyInt w.dropLast = none
          ∨ (w.getLast?.getD ' ').toLower ∉ (['d', 'w', 'm', 'y'] : List Char)))
    ∧ (∀ ds : List Char, ∀ u : Char, ds ≠ [] → (∀ c ∈ ds, c.isDigit = true) →
        u ∈ (['d', 'w', 'm', 'y'] : List Char) →
        parse_window_str (ds ++ [u]) = some ((digitsVal ds : Int) * unitSeconds u)) := by
  refine ⟨by rfl, by rfl, by rfl, by rfl, ?_, ?_⟩
  · intro w
    by_cases hlen : w.length < 2
    · simp [parse_window_str, hlen]
    · cases hint : pyInt w.dropLast with
      | none => simp [parse_window_str, hlen, hint]
      | some num =>
        set u := (w.getLast?.getD ' ').toLower with hu
        by_cases hd : u = 'd'
        · simp [parse_window_str, hlen, hint, ← hu, hd]
        · by_cases hw : u = 'w'
          · simp [parse_window_str, hlen, hint, ← hu, hd, hw]
          · by_cases hm : u = 'm'
            · simp [parse_window_str, hlen, hint, ← hu, hd, hw, hm]
            · by_cases hy : u = 'y'
              · simp [parse_window_str, hlen, hint, ← hu, hd, hw, hm, hy]
              · simp [parse_window_str, hlen, hint, ← hu, hd, hw, hm, hy]
  · intro ds u h0 hds hu
    have hlen : ¬((ds ++ [u]).length < 2) := by
      obtain ⟨c, cs, rfl⟩ := List.exists_cons_of_ne_nil h0
      simp
    have hlen1 : 1 ≤ ds.length := List.length_pos.mpr h0
    have hdrop : (ds ++ [u]).dropLast = ds := by
      simp [List.dropLast_append_of_ne_nil]
    have hlast : (ds ++ [u]).getLast? = some u := by
      simp [List.getLast?_append]
    have hint : pyInt ds = some (digitsVal ds : Int) := pyInt_all_digits ds h0 hds
    simp only [List.mem_cons, List.not_mem_nil, or_false] at hu
    rcases hu with rfl | rfl | rfl | rfl <;>
      simp [parse_window_str, hlen, hlen1, hdrop, hlast, hint, unitSeconds] <;> ring

/-- C3 witness: the amended theorem applied at the concrete inputs
`"7d"` (digits-then-unit success) and `"5x"` (failure characterization). -/
theorem parse_window_str_correct_witness :
    parse_window_str ['7', 'd'] = some ((digitsVal ['7'] : Int) * unitSeconds 'd')
      ∧ (parse_window_str ['5', 'x'] = none ↔
        ((['5', 'x'] : List Char).length < 2 ∨ pyInt (['5', 'x'] : List Char).dropLast = none
          ∨ ((['5', 'x'] : List Char).getLast?.getD ' ').toLower
              ∉ (['d', 'w', 'm', 'y'] : List Char))) :=
  ⟨parse_window_str_correct.2.2.2.2.2 ['7'] 'd' (by decide) (by decide) (by decide),
   parse_window_str_correct.2.2.2.2.1 ['5', 'x']⟩

/-! ## Lemmas about the quintile scorer -/

theorem dictUpsert_append_single (l : List (Nat × Nat)) (p : Nat × Nat) (k : Nat) :
    dictUpsert (l ++ [p]) k = if k = p.1 then some p.2 else dictUpsert l k := by
  simp [dictUpsert, List.foldl_append]

theorem dictUpsert_lookup (l : List (Nat × Nat)) (hnd : (l.map Prod.fst).Nodup) :
    ∀ p ∈ l, dictUpsert l p.1 = some p.2 := by
  induction l using List.reverseRecOn with
  | nil => intro p hp; simp at hp
  | append_singleton t q ih =>
    intro p hp
    rw [dictUpsert_append_single]
    rcases List.mem_append.mp hp with hmem | hmem
    · have hk : p.1 ≠ q.1 := by
        intro hh
        have h1 : q.1 ∈ t.map Prod.fst := by
          rw [← hh]; exact List.mem_map_of_mem Prod.fst hmem
        have h2 : (t.map Prod.fst ++ [q.1]).Nodup := by simpa using hnd
        rcases List.nodup_append.mp h2 with ⟨-, -, hdisj⟩
        exact hdisj h1 (by simp)
      rw [if_neg hk]
      have hnd' : (t.map Prod.fst).Nodup := by
        have h2 : (t.map Prod.fst ++ [q.1]).Nodup := by simpa using hnd
        exact (List.nodup_append.mp h2).1
      exact ih hnd' p hmem
    · simp only [List.mem_singleton] at hmem
      subst hmem
      rw [if_pos rfl]

theorem bucketScore_range (smaller : Bool) (t20 t40 t60 t80 v : ℚ) :
    1 ≤ bucketScore smaller t20 t40 t60 t80 v ∧ bucketScore smaller t20 t40 t60 t80 v ≤ 5 := by
  unfold bucketScore
  cases smaller <;> split_ifs <;> simp

theorem bucketScore_false_mono (t20 t40 t60 t80 v1 v2 : ℚ) (h : v1 ≤ v2) :
    bucketScore false t20 t40 t60 t80 v1 ≤ bucketScore false t20 t40 t60 t80 v2 := by
  unfold bucketScore
  simp only [Bool.false_eq_true, if_false]
  split_ifs <;> first | omega | (exfalso; linarith)

/-- C7: on a non-empty list of pairs with not-all-identical values and
distinct ids, `_score_by_quintiles` with `smaller_is_better = false`
assigns every id a score in `{1..5}` that is non-decreasing in its raw
value; and on `[(1,100),(2,200),(3,300),(4,400),(5,500)]` it returns the
scores 1,2,3,4,5. -/
theorem score_by_quintiles_correct :
    (∀ pairs : List (Nat × ℚ), pairs ≠ [] →
      ¬(∀ v ∈ pairs.map Prod.snd, v = (pairs.map Prod.snd).headI) →
      (pairs.map Prod.fst).Nodup →
      (∀ p ∈ pairs, ∃ s, score_by_quintiles pairs false p.1 = some s ∧ 1 ≤ s ∧ s ≤ 5)
      ∧ (∀ p ∈ pairs, ∀ q ∈ pairs, p.2 ≤ q.2 →
          ∀ sp sq, score_by_quintiles pairs false p.1 = some sp →
            score_by_quintiles pairs false q.1 = some sq → sp ≤ sq))
    ∧ (score_by_quintiles [(1, 100), (2, 200), (3, 300), (4, 400), (5, 500)] false 1 = some 1
      ∧ score_by_quintiles [(1, 100), (2, 200), (3, 300), (4, 400), (5, 500)] false 2 = some 2
      ∧ score_by_quintiles [(1, 100), (2, 200), (3, 300), (4, 400), (5, 500)] false 3 = some 3
      ∧ score_by_quintiles [(1, 100), (2, 200), (3, 300), (4, 400), (5, 500)] false 4 = some 4
      ∧ score_by_quintiles [(1, 100), (2, 200), (3, 300), (4, 400), (5, 500)] false 5
          = some 5) := by
  constructor
  · intro pairs h0 hne hnd
    have hlen : ¬(pairs.length = 0) := fun hh => h0 (List.length_eq_zero.mp hh)
    have hall : ¬((pairs.map Prod.snd).all
        (fun v => v = (pairs.map Prod.snd).headI) = true) := by
      intro hh
      exact hne (by simpa using List.all_eq_true.mp hh)
    set T := quintileThresholds (pairs.map Prod.snd) with hT
    set f : Nat × ℚ → Nat × Nat :=
      (fun q => (q.1, bucketScore false T.1 T.2.1 T.2.2.1 T.2.2.2 q.2)) with hf
    have heq : ∀ k, score_by_quintiles pairs false k = dictUpsert (pairs.map f) k := by
      intro k
      unfold score_by_quintiles
      rw [if_neg hlen, if_neg hall]
    have hnd' : ((pairs.map f).map Prod.fst).Nodup := by
      simpa [hf, List.map_map, Function.comp] using hnd
    constructor
    · intro p hp
      have hlook := dictUpsert_lookup _ hnd' (f p) (List.mem_map_of_mem f hp)
      refine ⟨bucketScore false T.1 T.2.1 T.2.2.1 T.2.2.2 p.2, ?_,
        (bucketScore_range false _ _ _ _ p.2).1, (bucketScore_range false _ _ _ _ p.2).2⟩
      rw [heq]
      exact hlook
    · intro p hp q hq hpq sp sq hsp hsq
      have hlp := dictUpsert_lookup _ hnd' (f p) (List.mem_map_of_mem f hp)
      have hlq := dictUpsert_lookup _ hnd' (f q) (List.mem_map_of_mem f hq)
      rw [heq] at hsp hsq
      rw [hlp] at hsp
      rw [hlq] at hsq
      obtain rfl := Option.some.inj hsp
      obtain rfl := Option.some.inj hsq
      exact bucketScore_false_mono _ _ _ _ p.2 q.2 hpq
  · refine ⟨by decide, by decide, by decide, by decide, by decide⟩

/-- C7 witness: the general part applied to the concrete example list at
the pair `(1, 100)` and the pair pair `(2, 200)`. -/
theorem score_by_quintiles_correct_witness :
    (∃ s, score_by_quintiles [(1, 100), (2, 200), (3, 300), (4, 400), (5, 500)] false 1
        = some s ∧ 1 ≤ s ∧ s ≤ 5)
      ∧ (∀ sp sq,
        score_by_quintiles [(1, 100), (2, 200), (3, 300), (4, 400), (5, 500)] false 1 = some sp →
        score_by_quintiles [(1, 100), (2, 200), (3, 300), (4, 400), (5, 500)] false 2 = some sq →
        sp ≤ sq) :=
  ⟨(score_by_quintiles_correct.1 [(1, 100), (2, 200), (3, 300), (4, 400), (5, 500)]
      (by decide) (by decide) (by decide)).1 (1, 100) (by decide),
   fun sp sq hsp hsq =>
    (score_by_quintiles_correct.1 [(1, 100), (2, 200), (3, 300), (4, 400), (5, 500)]
      (by decide) (by decide) (by decide)).2 (1, 100) (by decide) (2, 200) (by decide)
      (by norm_num) sp sq hsp hsq⟩

/-! ## Lemmas about the Rule Evaluator -/

theorem cacheLookup_append_left (cache l : List (EvalKey × Option ℚ)) (k : EvalKey)
    (h : cacheLookup cache k ≠ none) : cacheLookup (cache ++ l) k = cacheLookup cache k := by
  unfold cacheLookup at *
  rw [List.find?_append]
  cases hf : cache.find? (fun p => p.1 = k) with
  | none => rw [hf] at h; simp at h
  | some p => simp [Option.or]

theorem cacheLookup_append_right (cache : List (EvalKey × Option ℚ)) (k : EvalKey)
    (v : Option ℚ) (h : cacheLookup cache k = none) :
    cacheLookup (cache ++ [(k, v)]) k = some v := by
  unfold cacheLookup at *
  rw [List.find?_append]
  cases hf : cache.find? (fun p => p.1 = k) with
  | none => simp [Option.or, List.find?]
  | some p => rw [hf] at h; simp at h

theorem evalLoop_calls_nodup (orders : List Order) (now : Int)
    (pubOk : AlertRule → ℚ → Bool) :
    ∀ (rules : List AlertRule) (s : EvalState) (cache : List (EvalKey × Option ℚ)),
    s.metricCalls.Nodup → (∀ k ∈ s.metricCalls, cacheLookup cache k ≠ none) →
    (resState (evalLoop orders now pubOk rules s cache)).metricCalls.Nodup := by
  intro rules
  induction rules with
  | nil =>
    intro s cache h1 _
    simpa [evalLoop, resState] using h1
  | cons r rest ih =>
    intro s cache h1 h2
    rw [evalLoop]
    cases hcl : cacheLookup cache (r.merchant_id, r.metric, r.time_window_s) with
    | some v =>
      cases v with
      | none => exact ih _ cache h1 h2
      | some v =>
        dsimp only
        by_cases htr : _is_rule_triggered r v = true
        · rw [if_pos htr]
          by_cases hpk : pubOk r v = true
          · rw [if_pos hpk]
            exact ih _ cache h1 h2
          · rw [if_neg hpk]
            exact h1
        · rw [if_neg htr]
          exact ih _ cache h1 h2
    | none =>
      cases hmf : metricFunc r.metric with
      | none =>
        dsimp only
        refine ih _ _ h1 ?_
        intro k hk
        rw [cacheLookup_append_left cache _ k (h2 k hk)]
        exact h2 k hk
      | some f =>
        dsimp only
        have hnotin : (r.merchant_id, r.metric, r.time_window_s) ∉ s.metricCalls :=
          fun hin => (h2 _ hin) hcl
        have h1' : (s.metricCalls ++ [(r.merchant_id, r.metric, r.time_window_s)]).Nodup := by
          rw [List.nodup_append]
          exact ⟨h1, List.nodup_singleton _, by
            intro a ha hb
            simp only [List.mem_singleton] at hb
            subst hb
            exact hnotin ha⟩
        have h2' : ∀ k ∈ s.metricCalls ++ [(r.merchant_id, r.metric, r.time_window_s)],
            cacheLookup (cache ++ [((r.merchant_id, r.metric, r.time_window_s),
              some (f orders now r.merchant_id r.time_window_s))]) k ≠ none := by
          intro k hk
          rcases List.mem_append.mp hk with hk | hk
          · rw [cacheLookup_append_left cache _ k (h2 k hk)]
            exact h2 k hk
          · simp only [List.mem_singleton] at hk
            subst hk
            rw [cacheLookup_append_right cache _ _ hcl]
            simp
        by_cases htr : _is_rule_triggered r (f orders now r.merchant_id r.time_window_s) = true
        · rw [if_pos htr]
          by_cases hpk : pubOk r (f orders now r.merchant_id r.time_window_s) = true
          · rw [if_pos hpk]
            exact ih _ _ h1' h2'
          · rw [if_neg hpk]
            exact h1'
        · rw [if_neg htr]
          exact ih _ _ h1' h2'

theorem cacheLookup_some_mem (cache : List (EvalKey × Option ℚ)) (k : EvalKey)
    (v : Option ℚ) (h : cacheLookup cache k = some v) :
    ∃ p ∈ cache, p.1 = k ∧ p.2 = v := by
  unfold cacheLookup at h
  cases hf : cache.find? (fun p => p.1 = k) with
  | none => rw [hf] at h; simp at h
  | some p =>
    rw [hf] at h
    refine ⟨p, List.mem_of_find?_eq_some hf, ?_, ?_⟩
    · have := List.find?_some hf
      simpa using this
    · simpa using h

theorem evalLoop_pubTrue (orders : List Order) (now : Int) :
    ∀ (rules : List AlertRule) (s : EvalState) (cache : List (EvalKey × Option ℚ)),
    (∀ p ∈ cache, p.2 ≠ none → metricFunc p.1.2.1 ≠ none) →
    (∀ e ∈ s.published, metricFunc e.metric ≠ none) →
    ∃ s', evalLoop orders now (fun _ _ => true) rules s cache = .ok s'
      ∧ s'.evaluated = s.evaluated + rules.length
      ∧ (∀ e ∈ s'.published, metricFunc e.metric ≠ none) := by
  intro rules
  induction rules with
  | nil =>
    intro s cache _ hpub
    exact ⟨s, rfl, by simp, hpub⟩
  | cons r rest ih =>
    intro s cache hcache hpub
    rw [evalLoop]
    cases hcl : cacheLookup cache (r.merchant_id, r.metric, r.time_window_s) with
    | some v =>
      cases v with
      | none =>
        obtain ⟨s', hs', he, hp⟩ := ih { s with evaluated := s.evaluated + 1 } cache hcache hpub
        refine ⟨s', hs', ?_, hp⟩
        simp only [List.length_cons]
        simp at he
        omega
      | some v =>
        dsimp only
        have hfn : metricFunc r.metric ≠ none := by
          obtain ⟨p, hmem, hk, hv⟩ := cacheLookup_some_mem cache _ _ hcl
          have hne : p.2 ≠ none := by rw [hv]; simp
          have := hcache p hmem hne
          rw [hk] at this
          exact this
        by_cases htr : _is_rule_triggered r v = true
        · rw [if_pos htr, if_pos rfl]
          have hpub' : ∀ e ∈ s.published ++ [mkEvent r v],
              metricFunc e.metric ≠ none := by
            intro e he
            rcases List.mem_append.mp he with he | he
            · exact hpub e he
            · simp only [List.mem_singleton] at he
              subst he
              exact hfn
          obtain ⟨s', hs', he, hp⟩ := ih
            { s with
              evaluated := s.evaluated + 1
              matched := s.matched + 1
              published := s.published ++ [mkEvent r v] } cache hcache hpub'
          refine ⟨s', hs', ?_, hp⟩
          simp only [List.length_cons]
          simp at he
          omega
        · rw [if_neg htr]
          obtain ⟨s', hs', he, hp⟩ := ih { s with evaluated := s.evaluated + 1 } cache hcache hpub
          refine ⟨s', hs', ?_, hp⟩
          simp only [List.length_cons]
          simp at he
          omega
    | none =>
      cases hmf : metricFunc r.metric with
      | none =>
        dsimp only
        have hcache' : ∀ p ∈ cache ++ [((r.merchant_id, r.metric, r.time_window_s),
            (none : Option ℚ))], p.2 ≠ none → metricFunc p.1.2.1 ≠ none := by
          intro p hp
          rcases List.mem_append.mp hp with hp | hp
          · exact hcache p hp
          · simp only [List.mem_singleton] at hp
            subst hp
            intro hc
            exact absurd rfl hc
        obtain ⟨s', hs', he, hp⟩ := ih { s with evaluated := s.evaluated + 1 } _ hcache' hpub
        refine ⟨s', hs', ?_, hp⟩
        simp only [List.length_cons]
        simp at he
        omega
      | some f =>
        dsimp only
        have hfn : metricFunc r.metric ≠ none := by rw [hmf]; simp
        have hcache' : ∀ p ∈ cache ++ [((r.merchant_id, r.metric, r.time_window_s),
            some (f orders now r.merchant_id r.time_window_s))], p.2 ≠ none →
            metricFunc p.1.2.1 ≠ none := by
          intro p hp
          rcases List.mem_append.mp hp with hp | hp
          · exact hcache p hp
          · simp only [List.mem_singleton] at hp
            subst hp
            intro _
            exact hfn
        by_cases htr : _is_rule_triggered r (f orders now r.merchant_id r.time_window_s) = true
        · rw [if_pos htr, if_pos rfl]
          have hpub' : ∀ e ∈ s.published ++ [mkEvent r (f orders now r.merchant_id
              r.time_window_s)], metricFunc e.metric ≠ none := by
            intro e he
            rcases List.mem_append.mp he with he | he
            · exact hpub e he
            · simp only [List.mem_singleton] at he
              subst he
              exact hfn
          obtain ⟨s', hs', he, hp⟩ := ih
            { s with
              evaluated := s.evaluated + 1
              matched := s.matched + 1
              published := s.published ++ [mkEvent r (f orders now r.merchant_id
                r.time_window_s)]
              metricCalls := s.metricCalls ++ [(r.merchant_id, r.metric, r.time_window_s)] }
            _ hcache' hpub'
          refine ⟨s', hs', ?_, hp⟩
          simp only [List.length_cons]
          simp at he
          omega
        · rw [if_neg htr]
          obtain ⟨s', hs', he, hp⟩ := ih
            { s with
              evaluated := s.evaluated + 1
              metricCalls := s.metricCalls ++ [(r.merchant_id, r.metric, r.time_window_s)] }
            _ hcache' hpub
          refine ⟨s', hs', ?_, hp⟩
          simp only [List.length_cons]
          simp at he
          omega

/-! ## Claims C1, C2, C4 — the Rule Evaluator -/

/-- C1 (the code at the failing input): in the batch `[ruleLow, ruleMid]`
over an `orders_per_min` value of 6, a publish failure on the first
triggered rule makes `evaluate_rules` abort: only one rule is counted as
evaluated, nothing is published, and the counts are never returned (the
exception propagates).  The same batch with a working publisher evaluates
both rules and publishes both alerts.  The spec instead requires per-rule
isolation (log-and-continue). -/
theorem evaluate_rules_publish_abort :
    evaluate_rules sixOrders 1000 (fun r _ => r.id != 1) [ruleLow, ruleMid]
      = .error ⟨1, 0, [], [(2, "orders_per_min", 60)]⟩
    ∧ evaluate_rules sixOrders 1000 pubAlways [ruleLow, ruleMid]
      = .ok ⟨2, 2, [mkEvent ruleLow 6, mkEvent ruleMid 6], [(2, "orders_per_min", 60)]⟩ :=
  ⟨by decide, by decide⟩

/-- C2: in one `evaluate_rules` invocation the metric computation runs at
most once per distinct `(merchant_id, metric, time_window_s)` key — the
list of performed metric calls has no duplicates, for every batch and
every publish behavior; and on the spec's example (two active rules
sharing `(2, "orders_per_min", 60)` with thresholds 4 and 10, metric value
6.0) the metric function is invoked exactly once and the result is
`{evaluated := 2, matched := 1}`. -/
theorem evaluate_rules_metric_once :
    (∀ (orders : List Order) (now : Int) (pubOk : AlertRule → ℚ → Bool)
      (rules : List AlertRule),
      (resState (evaluate_rules orders now pubOk rules)).metricCalls.Nodup)
    ∧ evaluate_rules sixOrders 1000 pubAlways [ruleLow, ruleHigh]
        = .ok ⟨2, 1, [mkEvent ruleLow 6], [(2, "orders_per_min", 60)]⟩ := by
  constructor
  · intro orders now pubOk rules
    apply evalLoop_calls_nodup
    · exact List.nodup_nil
    · intro k hk
      simp at hk
  · decide

/-- C4: with a working publisher, `evaluate_rules` never raises — it
returns counts for every batch; every active rule is counted in
`evaluated` (unknown metrics included, resolved to the `None` skip
sentinel); and no alert is ever published for a metric name outside the
`_METRIC_FUNCS` table.  Concretely, a batch holding only an
unknown-metric rule yields `{evaluated := 1, matched := 0}` with no
publishes and no metric calls. -/
theorem evaluate_rules_unknown_metric_skip :
    (∀ (orders : List Order) (now : Int) (rules : List AlertRule),
      ∃ s, evaluate_rules orders now pubAlways rules = .ok s
        ∧ s.evaluated = (rules.filter (·.is_active)).length
        ∧ (∀ e ∈ s.published, metricFunc e.metric ≠ none))
    ∧ evaluate_rules sixOrders 1000 pubAlways [ruleUnknown] = .ok ⟨1, 0, [], []⟩ := by
  constructor
  · intro orders now rules
    obtain ⟨s, hs, he, hp⟩ := evalLoop_pubTrue orders now
      (List.insertionSort (fun a b => a.merchant_id ≤ b.merchant_id)
        (rules.filter (·.is_active)))
      ⟨0, 0, [], []⟩ [] (by intro p hp; simp at hp) (by intro e he; simp at he)
    refine ⟨s, hs, ?_, hp⟩
    rw [he]
    simp only [Nat.zero_add]
    exact (List.perm_insertionSort _ _).length_eq
  · decide

/-! ## Claim C9 — `rolling_aov` -/

/-- C9: `rolling_aov` aggregates exactly the given merchant's orders with
`created_at` in `[reference_time - duration, reference_time]`, inclusive
on both ends: an order of another merchant or outside the window never
changes the result; no matching orders give `orders = 0, aov = 0.0`; and
for totals 100 and 50 sitting exactly on the two window boundaries of a
`"30d"` window plus one order of 999 just outside, the result is
`orders = 2, aov = 75.0`. -/
theorem rolling_aov_correct :
    (∀ (orders : List Order) (merchant_id : Nat) (window : List Char) (now delta : Int),
      parse_window_str window = some delta →
      orders.filter (fun o => o.merchant_id == merchant_id
        && now - delta ≤ o.created_at && o.created_at ≤ now) = [] →
      rolling_aov orders merchant_id window now = some ⟨window, now - delta, now, 0, 0⟩)
    ∧ (∀ (o : Order) (orders : List Order) (merchant_id : Nat) (window : List Char)
        (now delta : Int),
      parse_window_str window = some delta →
      (o.merchant_id ≠ merchant_id ∨ o.created_at < now - delta ∨ now < o.created_at) →
      rolling_aov (o :: orders) merchant_id window now
        = rolling_aov orders merchant_id window now)
    ∧ rolling_aov
        [⟨1, 7, 101, 100, 5184000 - 2592000⟩, ⟨2, 7, 102, 50, 5184000⟩,
         ⟨3, 7, 103, 999, 5184000 - 2592000 - 1⟩]
        7 ['3', '0', 'd'] 5184000
        = some ⟨['3', '0', 'd'], 2592000, 5184000, 2, 75⟩ := by
  refine ⟨?_, ?_, ?_⟩
  · intro orders merchant_id window now delta hw hf
    unfold rolling_aov
    rw [hw]
    dsimp only
    rw [hf]
    simp [pyRound2, roundHalfEven]
    decide
  · intro o orders merchant_id window now delta hw hcond
    unfold rolling_aov
    rw [hw]
    dsimp only
    have hpred : (fun o : Order => o.merchant_id == merchant_id
        && now - delta ≤ o.created_at && o.created_at ≤ now) o = false := by
      rcases hcond with h | h | h
      · simp [Nat.ne_iff_lt_or_gt.mp h]
        intro hh
        exact absurd hh h
      · simp
        intro hh
        omega
      · simp
        intro hh hh2
        omega
    rw [List.filter_cons_of_neg (by simp only at hpred; rw [hpred]; simp)]
  · decide

/-- C9 witness: the empty-window and irrelevant-order parts applied at
concrete inputs. -/
theorem rolling_aov_correct_witness :
    rolling_aov [] 7 ['3', '0', 'd'] 5184000
      = some ⟨['3', '0', 'd'], 5184000 - 2592000, 5184000, 0, 0⟩
    ∧ rolling_aov [⟨9, 8, 200, 999, 5184000⟩] 7 ['3', '0', 'd'] 5184000
      = rolling_aov [] 7 ['3', '0', 'd'] 5184000 :=
  ⟨rolling_aov_correct.1 [] 7 ['3', '0', 'd'] 5184000 2592000 (by decide) (by decide),
   rolling_aov_correct.2.1 ⟨9, 8, 200, 999, 5184000⟩ [] 7 ['3', '0', 'd'] 5184000 2592000
     (by decide) (by decide)⟩

/-! ## Claims C5, C8 — `monthly_cohorts` -/

/-- C5: every cohort row of `monthly_cohorts` is dense — its cells run
`m0 … mMaxObservedOffset`, zero-filled where no customers were retained;
the rows are sorted ascending by cohort month; a repeat order by the same
customer in the same cell does not change the matrix (distinct customers,
not orders); and the Jan/Feb/Mar 2024 example produces exactly the rows
Jan `[1,1,1]`, Feb `[1,1,0]`, Mar `[1,0,0]`. -/
theorem monthly_cohorts_correct :
    (∀ (orders : List Order) (mid : Nat) (start? end? : Option Int),
      ∀ row ∈ (monthly_cohorts orders mid start? end?).cohorts,
        row.cells.length
          = maxOffsetOf orders mid (start?.map ymOfSec) (end?.map ymOfSec) + 1)
    ∧ (∀ (orders : List Order) (mid : Nat) (start? end? : Option Int),
      List.Sorted (· ≤ ·) ((monthly_cohorts orders mid start? end?).cohorts.map
        CohortRow.cohort))
    ∧ monthly_cohorts cohOrdersDup 1 none none = monthly_cohorts cohOrders 1 none none
    ∧ monthly_cohorts cohOrders 1 none none
        = ⟨some (2024 * 12 + 1), some (2024 * 12 + 3),
           [⟨2024 * 12 + 1, [1, 1, 1]⟩, ⟨2024 * 12 + 2, [1, 1, 0]⟩,
            ⟨2024 * 12 + 3, [1, 0, 0]⟩]⟩ := by
  refine ⟨?_, ?_, by decide, by decide⟩
  · intro orders mid start? end? row hrow
    unfold monthly_cohorts at hrow
    by_cases hj : joinedOrders orders mid (start?.map ymOfSec) (end?.map ymOfSec) = []
    · rw [if_pos hj] at hrow
      simp at hrow
    · rw [if_neg hj] at hrow
      simp only [List.mem_map] at hrow
      obtain ⟨c, -, rfl⟩ := hrow
      simp
  · intro orders mid start? end?
    unfold monthly_cohorts
    by_cases hj : joinedOrders orders mid (start?.map ymOfSec) (end?.map ymOfSec) = []
    · rw [if_pos hj]
      simp
    · rw [if_neg hj]
      dsimp only
      rw [List.map_map]
      have hmap : (CohortRow.cohort ∘ fun c => CohortRow.mk c
          ((List.range (maxOffsetOf orders mid (start?.map ymOfSec) (end?.map ymOfSec) + 1)).map
            (fun k => activeCount orders mid (start?.map ymOfSec) (end?.map ymOfSec) c k)))
          = id := by
        funext c
        rfl
      rw [hmap, List.map_id]
      unfold cohortMonths
      exact List.sorted_insertionSort _ _

/-- C5 witness: the density part applied to the example matrix's first
row. -/
theorem monthly_cohorts_correct_witness :
    CohortRow.mk (2024 * 12 + 1) [1, 1, 1] ∈ (monthly_cohorts cohOrders 1 none none).cohorts
    ∧ (CohortRow.mk (2024 * 12 + 1) [1, 1, 1]).cells.length
        = maxOffsetOf cohOrders 1 ((none : Option Int).map ymOfSec)
            ((none : Option Int).map ymOfSec) + 1 :=
  ⟨by decide,
   monthly_cohorts_correct.1 cohOrders 1 none none
     (CohortRow.mk (2024 * 12 + 1) [1, 1, 1]) (by decide)⟩

/-- C8: with zero orders for the merchant, `monthly_cohorts` returns an
empty cohort list, and the bounds echo the month-floored explicit bounds
(`none` — JSON `null` — when a bound was not given). -/
theorem monthly_cohorts_empty_correct :
    ∀ (orders : List Order) (mid : Nat) (start? end? : Option Int),
      merchantOrders orders mid = [] →
      monthly_cohorts orders mid start? end?
        = ⟨start?.map ymOfSec, end?.map ymOfSec, []⟩ := by
  intro orders mid start? end? h
  unfold monthly_cohorts
  rw [if_pos]
  unfold joinedOrders
  rw [h]
  rfl

/-- C8 witness: the theorem applied with no orders, once without bounds
(`start = end = null`) and once with explicit bounds (mid-February to
May 2024, echoed back month-floored). -/
theorem monthly_cohorts_empty_correct_witness :
    monthly_cohorts [] 5 none none = ⟨none, none, []⟩
    ∧ monthly_cohorts [] 5 (some (tsOf 2024 2 15)) (some (tsOf 2024 5 1))
        = ⟨(some (tsOf 2024 2 15)).map ymOfSec, (some (tsOf 2024 5 1)).map ymOfSec, []⟩ :=
  ⟨monthly_cohorts_empty_correct [] 5 none none (by decide),
   monthly_cohorts_empty_correct [] 5 (some (tsOf 2024 2 15)) (some (tsOf 2024 5 1))
     (by decide)⟩

/-! ## Claim C6 — merchant scoping of every aggregate -/

theorem filter_and_left {α : Type} (p q : α → Bool) (l : List α) :
    l.filter (fun o => p o && q o) = (l.filter p).filter q := by
  induction l with
  | nil => rfl
  | cons a t ih =>
    by_cases hp : p a = true
    · by_cases hq : q a = true <;> simp [List.filter_cons, hp, hq, ih]
    · simp [List.filter_cons, hp, ih]

theorem window_filter_eq (l : List Order) (mid : Nat) (lo hi : Int) :
    (l.filter (fun o => o.merchant_id == mid && lo ≤ o.created_at && o.created_at ≤ hi))
      = ((merchantOrders l mid).filter (fun o =>
          decide (lo ≤ o.created_at) && decide (o.created_at ≤ hi))) := by
  unfold merchantOrders
  rw [← filter_and_left (fun o : Order => o.merchant_id == mid)
    (fun o => decide (lo ≤ o.created_at) && decide (o.created_at ≤ hi)) l]
  apply List.filter_congr
  intro o _
  rw [Bool.and_assoc]

/-- C6: each aggregate of the core depends only on the given merchant's
own orders: whenever two order stores agree on merchant `mid`'s orders,
`rolling_aov`, `rfm_scores`, `monthly_cohorts` and the two alert metric
computations return identical results for `mid`. -/
theorem merchant_isolation :
    ∀ (l1 l2 : List Order) (mid : Nat),
      merchantOrders l1 mid = merchantOrders l2 mid →
      (∀ (window : List Char) (now : Int),
        rolling_aov l1 mid window now = rolling_aov l2 mid window now)
      ∧ (∀ now : Int, rfm_scores l1 mid now = rfm_scores l2 mid now)
      ∧ (∀ start? end? : Option Int,
        monthly_cohorts l1 mid start? end? = monthly_cohorts l2 mid start? end?)
      ∧ (∀ (now : Int) (w : Nat),
        _compute_orders_per_min l1 now mid w = _compute_orders_per_min l2 now mid w)
      ∧ (∀ (now : Int) (w : Nat),
        _compute_aov_window l1 now mid w = _compute_aov_window l2 now mid w) := by
  intro l1 l2 mid h
  refine ⟨?_, ?_, ?_, ?_, ?_⟩
  · intro window now
    unfold rolling_aov
    cases parse_window_str window with
    | none => rfl
    | some delta =>
      dsimp only
      rw [window_filter_eq l1, window_filter_eq l2, h]
  · intro now
    have hrows : rfm_rows l1 mid = rfm_rows l2 mid := by
      unfold rfm_rows
      rw [h]
    unfold rfm_scores
    rw [hrows]
  · intro start? end?
    have hfirst : ∀ c, custFirstYm l1 mid c = custFirstYm l2 mid c := by
      intro c
      unfold custFirstYm
      rw [h]
    have hjoined : ∀ sy ey, joinedOrders l1 mid sy ey = joinedOrders l2 mid sy ey := by
      intro sy ey
      unfold joinedOrders
      rw [h]
    have hmo : ∀ sy ey, maxOffsetOf l1 mid sy ey = maxOffsetOf l2 mid sy ey := by
      intro sy ey
      unfold maxOffsetOf
      rw [hjoined]
      simp only [hfirst]
    have hcm : ∀ sy ey, cohortMonths l1 mid sy ey = cohortMonths l2 mid sy ey := by
      intro sy ey
      unfold cohortMonths
      rw [hjoined]
      simp only [hfirst]
    have hac : ∀ sy ey c k, activeCount l1 mid sy ey c k = activeCount l2 mid sy ey c k := by
      intro sy ey c k
      unfold activeCount
      rw [hjoined]
      simp only [hfirst]
    unfold monthly_cohorts
    simp only [hjoined, hmo, hcm, hac]
  · intro now w
    unfold _compute_orders_per_min
    dsimp only
    rw [window_filter_eq l1, window_filter_eq l2, h]
  · intro now w
    unfold _compute_aov_window
    dsimp only
    rw [window_filter_eq l1, window_filter_eq l2, h]

/-- C6 witness: the cohort example store versus the same store with an
extra order of another merchant — merchant 1's aggregates coincide. -/
theorem merchant_isolation_witness :
    rolling_aov cohOrders 1 ['3', '0', 'd'] (tsOf 2024 4 1)
      = rolling_aov (cohOrders ++ [⟨99, 2, 9, 999, tsOf 2024 2 2⟩]) 1 ['3', '0', 'd']
          (tsOf 2024 4 1)
    ∧ monthly_cohorts cohOrders 1 none none
      = monthly_cohorts (cohOrders ++ [⟨99, 2, 9, 999, tsOf 2024 2 2⟩]) 1 none none :=
  ⟨((merchant_isolation cohOrders (cohOrders ++ [⟨99, 2, 9, 999, tsOf 2024 2 2⟩]) 1
      (by decide)).1 ['3', '0', 'd'] (tsOf 2024 4 1)).symm ▸ rfl,
   ((merchant_isolation cohOrders (cohOrders ++ [⟨99, 2, 9, 999, tsOf 2024 2 2⟩]) 1
      (by decide)).2.2.1 none none)⟩

end

end InsightfulOrders
